import Mathlib

/-!
Verification development for the TimeZap editor add-on.

The definitions below are a shallow embedding, into Lean, of the
TypeScript sources of the repository:

* `src/timeService.ts` (TimeService: idle detection, per-tick time
  accumulation, time-series bucketing),
* `src/storage.ts` (Storage: debounced persistence, JSON export/import),
* `src/statusBar.ts` and the dashboard webview script (human-readable
  time formatting).

Modelling conventions:

* JavaScript objects used as dictionaries (`data.workspaceFolders`,
  `ws.dates`, `dayBucket.byFile`, `dayBucket.byFolder`) are modelled as
  association lists `List (String × α)` with JavaScript property-update
  semantics: updating an existing key keeps its position, a fresh key is
  appended at the end (insertion order, as JavaScript enumerates it).
* Timestamps (`Date.now()`) are integers of milliseconds since the Unix
  epoch. The clock is modelled in UTC, matching `toISOString`, which is
  what `dateKeyFor` uses; `d.setDate(d.getDate() - i)` is modelled as
  subtracting `i * 86400000` ms (no daylight-saving shifts in the model).
* `Math.floor(x / 1000)` on integer inputs is integer floor division,
  `Int.fdiv`.
* Fallible operations (`JSON.parse`) return `Option`.
-/

namespace TimeZap

/-! ### Association-list model of JavaScript dictionary objects -/

/-- Property read `m[k]`: `some v` when the key is present. -/
def lookup {α : Type} : List (String × α) → String → Option α
  | [], _ => none
  | (k2, v) :: rest, k => if k2 = k then some v else lookup rest k

/-- Property write `m[k] = v`: replace in place, or append a fresh key. -/
def setKey {α : Type} : List (String × α) → String → α → List (String × α)
  | [], k, v => [(k, v)]
  | (k2, v2) :: rest, k, v =>
    if k2 = k then (k2, v) :: rest else (k2, v2) :: setKey rest k v

/-- The JavaScript idiom `m[k] = (m[k] || 0) + v`. -/
def addTo (m : List (String × Nat)) (k : String) (v : Nat) : List (String × Nat) :=
  setKey m k ((lookup m k).getD 0 + v)

/-- Sum of all values of a numeric dictionary. -/
def sumVals (m : List (String × Nat)) : Nat :=
  (m.map (fun kv => kv.2)).sum

/-! ### Calendar-day keys (`dateKeyFor` in `timeService.ts`)

`dateKeyFor(ts)` returns `new Date(ts).toISOString().slice(0, 10)`,
i.e. the UTC calendar date `YYYY-MM-DD` of the millisecond timestamp.
The conversion from a day count to a civil date is the standard
Gregorian-calendar algorithm (as used by the host platform). -/

/-- Gregorian civil date (year, month, day) from a count of days since
1970-01-01, the computation `toISOString` exposes. -/
def civilFromDays (z0 : Int) : Int × Int × Int :=
  let z := z0 + 719468
  let era : Int := (if 0 ≤ z then z else z - 146096).tdiv 146097
  let doe : Int := z - era * 146097
  let yoe : Int := (doe - doe.tdiv 1460 + doe.tdiv 36524 - doe.tdiv 146096).tdiv 365
  let y : Int := yoe + era * 400
  let doy : Int := doe - (365 * yoe + yoe.tdiv 4 - yoe.tdiv 100)
  let mp : Int := (5 * doy + 2).tdiv 153
  let d : Int := doy - (153 * mp + 2).tdiv 5 + 1
  let m : Int := mp + (if mp < 10 then 3 else -9)
  (y + (if m ≤ 2 then 1 else 0), m, d)

/-- Left-pad the decimal rendering of a number to two digits. -/
def pad2 (n : Int) : String :=
  if n < 10 then "0" ++ toString n else toString n

/-- Left-pad the decimal rendering of a number to four digits. -/
def pad4 (n : Int) : String :=
  if n < 10 then "000" ++ toString n
  else if n < 100 then "00" ++ toString n
  else if n < 1000 then "0" ++ toString n
  else toString n

/-- `dateKeyFor`: the `YYYY-MM-DD` UTC date key of a millisecond
timestamp (`new Date(ts).toISOString().slice(0, 10)`). -/
def dateKeyFor (ts : Int) : String :=
  let c := civilFromDays (ts.fdiv 86400000)
  pad4 c.1 ++ "-" ++ pad2 c.2.1 ++ "-" ++ pad2 c.2.2

/-! ### TimeService data model (`src/storage.ts` / `src/timeService.ts`) -/

/-- `config.aggregateBy`. -/
inductive AggregateBy where
  | folder
  | file
deriving DecidableEq, Repr

/-- `TimeServiceConfig`. -/
structure TimeServiceConfig where
  idleTimeoutSeconds : Nat
  persistIntervalSeconds : Nat
  aggregateBy : AggregateBy
  autoStart : Bool
deriving DecidableEq, Repr

/-- The defaults supplied by the `TimeService` constructor. -/
def defaultConfig : TimeServiceConfig :=
  { idleTimeoutSeconds := 300
    persistIntervalSeconds := 30
    aggregateBy := AggregateBy.folder
    autoStart := true }

/-- One day bucket: `{ totalSeconds, byFile, byFolder }`. -/
structure DayBucket where
  totalSeconds : Nat
  byFile : List (String × Nat)
  byFolder : List (String × Nat)
deriving DecidableEq, Repr

/-- `{ path: workspaceKey }`, the `meta` field of a workspace record. -/
structure WorkspaceMeta where
  path : String
deriving DecidableEq, Repr

/-- One workspace record: `{ meta, dates }`. -/
structure WorkspaceEntry where
  meta : WorkspaceMeta
  dates : List (String × DayBucket)
deriving DecidableEq, Repr

/-- The persisted aggregation data. The only key the code uses is
`workspaceFolders`; `Option` models the `!this.data.workspaceFolders`
check (the field may be absent on freshly loaded data). -/
structure PersistedData where
  workspaceFolders : Option (List (String × WorkspaceEntry))
deriving DecidableEq, Repr

/-- The mutable fields of a `TimeService` instance, together with the
interval timers it installs (`tickTimer`/`persistTimer` hold the
interval length in ms when installed). -/
structure ServiceState where
  running : Bool
  data : PersistedData
  lastActivity : Int
  lastTick : Int
  activeFile : Option String
  activeWorkspace : Option String
  idle : Bool
  tickTimer : Option Nat
  persistTimer : Option Nat
  config : TimeServiceConfig
deriving DecidableEq, Repr

/-! ### Folder-key computation (the `aggregateBy === "folder"` branch)

`onTick` computes
`path.relative(wsPath, fileKey).split(path.sep)[0] || "."`, where
`wsPath` is `vscode.Uri.parse(workspaceKey).fsPath` when the workspace
key is a `file://` URI. Paths are modelled as POSIX paths with `/` as
`path.sep`. -/

/-- `s.split("/")` (single-character separator), character by character. -/
def splitSlashAux (cur : List Char) : List Char → List String
  | [] => [String.mk cur.reverse]
  | c :: cs =>
    if c = '/' then String.mk cur.reverse :: splitSlashAux [] cs
    else splitSlashAux (c :: cur) cs

/-- `s.split("/")`: the (possibly empty) fields between `/` separators. -/
def splitSlash (s : String) : List String :=
  splitSlashAux [] s.data

/-- Is the first list a prefix of the second? -/
def isPrefixOfL : List Char → List Char → Bool
  | [], _ => true
  | _ :: _, [] => false
  | a :: as, b :: bs => a = b && isPrefixOfL as bs

/-- `s.startsWith(p)`. -/
def strStartsWith (s p : String) : Bool :=
  isPrefixOfL p.data s.data

/-- `vscode.Uri.parse(u).fsPath` for a `file://` URI: drop the scheme. -/
def uriFsPath (u : String) : String := String.mk (u.data.drop 7)

/-- Path components, ignoring empty segments (leading `/`, `//`). -/
def splitPath (p : String) : List String :=
  (splitSlash p).filter (fun c => c ≠ "")

/-- Drop the common leading components of two component lists. -/
def dropCommon : List String → List String → List String × List String
  | a :: as, b :: bs =>
    if a = b then dropCommon as bs else (a :: as, b :: bs)
  | as, bs => (as, bs)

/-- Join path components with `/`. -/
def joinSlash : List String → String
  | [] => ""
  | [x] => x
  | x :: xs => x ++ "/" ++ joinSlash xs

/-- `path.relative(f, t)` for normalized absolute POSIX paths: strip the
common prefix, go up with `..` for what remains of `f`, then down into
what remains of `t`. -/
def pathRelative (f t : String) : String :=
  let p := dropCommon (splitPath f) (splitPath t)
  joinSlash (p.1.map (fun _ => "..") ++ p.2)

/-- The folder key used by the `aggregateBy === "folder"` branch of
`onTick`: first component of the path of the active file relative to
the workspace root, `"."` when the file is at the root itself. -/
def folderKeyFor (workspaceKey fileKey : String) : String :=
  let wsPath :=
    if strStartsWith workspaceKey "file://" then uriFsPath workspaceKey else workspaceKey
  let folderPath := pathRelative wsPath fileKey
  let first := (splitSlash folderPath).headD ""
  if first = "" then "." else first

/-! ### TimeService transitions -/

/-- `markActivity`: record the activity timestamp; when the session was
idle, leave the idle state and restart the tick baseline so the idle
interval is not counted. -/
def markActivity (s : ServiceState) (now : Int) : ServiceState :=
  let s1 := { s with lastActivity := now }
  if s1.idle then { s1 with idle := false, lastTick := now } else s1

/-- `start()`: idempotent on a running service; otherwise reset the
baselines and install the 1000 ms tick timer and the periodic persist
timer. -/
def start (s : ServiceState) (now : Int) : ServiceState :=
  if s.running then s
  else
    { s with
      running := true
      idle := false
      lastActivity := now
      lastTick := now
      tickTimer := some 1000
      persistTimer := some (s.config.persistIntervalSeconds * 1000) }

/-- A fresh zero day bucket, `{ totalSeconds: 0, byFile: {}, byFolder: {} }`. -/
def zeroBucket : DayBucket :=
  { totalSeconds := 0, byFile := [], byFolder := [] }

/-- The per-tick bucket update of `onTick`: add the delta to
`totalSeconds` and to exactly one of the two aggregation maps. -/
def bumpBucket (b : DayBucket) (aggBy : AggregateBy) (wsKey fileKey : String)
    (delta : Nat) : DayBucket :=
  let b1 := { b with totalSeconds := b.totalSeconds + delta }
  match aggBy with
  | AggregateBy.file => { b1 with byFile := addTo b1.byFile fileKey delta }
  | AggregateBy.folder =>
    { b1 with byFolder := addTo b1.byFolder (folderKeyFor wsKey fileKey) delta }

/-- The "ensure structure and accumulate" tail of `onTick`: create the
workspace record and the day bucket when missing, then apply
`bumpBucket` under the given workspace and day keys. -/
def addSeconds (d : PersistedData) (aggBy : AggregateBy)
    (wsKey fileKey day : String) (delta : Nat) : PersistedData :=
  let wsMap := d.workspaceFolders.getD []
  let ws := (lookup wsMap wsKey).getD { meta := { path := wsKey }, dates := [] }
  let b := (lookup ws.dates day).getD zeroBucket
  let b2 := bumpBucket b aggBy wsKey fileKey delta
  { workspaceFolders := some (setKey wsMap wsKey { ws with dates := setKey ws.dates day b2 }) }

/-- `onTick`, as a function of the state and the current time: no-op
unless running; on an idle tick only mark idle and move `lastTick`; on
an active tick accumulate `Math.floor((now - lastTick) / 1000)` seconds
when at least one whole second elapsed, leaving the state untouched
otherwise. -/
def onTick (s : ServiceState) (now : Int) : ServiceState :=
  if !s.running then s
  else if (s.config.idleTimeoutSeconds : Int) * 1000 ≤ now - s.lastActivity then
    { s with idle := true, lastTick := now }
  else
    let deltaSec : Int := (now - s.lastTick).fdiv 1000
    if deltaSec ≤ 0 then s
    else
      let workspaceKey := s.activeWorkspace.getD "untitled"
      let fileKey := s.activeFile.getD "untitled"
      let day := dateKeyFor now
      { s with
        lastTick := now
        data := addSeconds s.data s.config.aggregateBy workspaceKey fileKey day deltaSec.toNat }

/-- Convenience read used by the statements: the day bucket stored for a
workspace key and day key, if any. -/
def lookupBucket (d : PersistedData) (wsKey day : String) : Option DayBucket :=
  match lookup (d.workspaceFolders.getD []) wsKey with
  | some ws => lookup ws.dates day
  | none => none

/-! ### Time series (`getTimeSeriesForWorkspaceRanges`) -/

/-- One element of a time-series range: `{ date, totalSeconds }`. -/
structure SeriesEntry where
  date : String
  totalSeconds : Nat
deriving DecidableEq, Repr

/-- The result shape `{ "7d": ..., "30d": ..., "1y": ..., "all": ... }`
(field names adapted: Lean identifiers cannot start with a digit). -/
structure SeriesRanges where
  d7 : List SeriesEntry
  d30 : List SeriesEntry
  y1 : List SeriesEntry
  all : List SeriesEntry
deriving DecidableEq, Repr

/-- The `buildContiguous` loop body: the entry pushed for the day `i`
days before today (`found ? (found.totalSeconds || 0) : 0`). -/
def entryForDay (dates : List (String × DayBucket)) (todayMs : Int) (i : Nat) :
    SeriesEntry :=
  let key := dateKeyFor (todayMs - (i : Int) * 86400000)
  { date := key
    totalSeconds :=
      match lookup dates key with
      | some b => b.totalSeconds
      | none => 0 }

/-- `buildContiguous(days)`: the loop `for (i = days - 1; i >= 0; i--)`
pushing `entryForDay` values, so the result is
`[entryForDay (days-1), ..., entryForDay 0]`. -/
def buildContiguous (dates : List (String × DayBucket)) (todayMs : Int) :
    Nat → List SeriesEntry
  | 0 => []
  | n + 1 => entryForDay dates todayMs n :: buildContiguous dates todayMs n

/-- `makeRange(days)` of the no-data branch: the same loop pushing
entries with `totalSeconds: 0`. -/
def makeRange (todayMs : Int) : Nat → List SeriesEntry
  | 0 => []
  | n + 1 =>
    { date := dateKeyFor (todayMs - (n : Int) * 86400000), totalSeconds := 0 }
      :: makeRange todayMs n

/-- The recorded day entries of a workspace, in storage (insertion)
order: `Object.keys(ws.dates).map(k => ({date: k, totalSeconds:
ws.dates[k].totalSeconds || 0}))`. -/
def dayEntriesOf (ws : WorkspaceEntry) : List SeriesEntry :=
  ws.dates.map (fun kv => { date := kv.1, totalSeconds := kv.2.totalSeconds })

/-- The comparison `(a, b) => a.date.localeCompare(b.date)` passed to
`sort`, as the Boolean "less or equal" mergeSort expects: lexicographic
string order on the date keys. -/
def dateLe (a b : SeriesEntry) : Bool := decide (a.date ≤ b.date)

/-- `getTimeSeriesForWorkspaceRanges`, as a function of the loaded data,
the workspace key and the current time. -/
def getTimeSeriesForWorkspaceRanges (loaded : PersistedData) (wsKey : String)
    (todayMs : Int) : SeriesRanges :=
  match lookup (loaded.workspaceFolders.getD []) wsKey with
  | none =>
    { d7 := makeRange todayMs 7
      d30 := makeRange todayMs 30
      y1 := makeRange todayMs 365
      all := [] }
  | some ws =>
    let dayEntries := (dayEntriesOf ws).mergeSort dateLe
    { d7 := buildContiguous ws.dates todayMs 7
      d30 := buildContiguous ws.dates todayMs 30
      y1 := buildContiguous ws.dates todayMs 365
      all := dayEntries }

/-! ### Human-readable time formatting

`formatSecondsHuman` exists twice: once in `src/statusBar.ts` and once
(textually duplicated) inside the dashboard webview script. Both are
embedded; seconds are modelled as integers (`NaN`, which the
`!s` guard also catches, has no integer counterpart). -/

/-- `formatSecondsHuman` from `src/statusBar.ts`. -/
def formatSecondsHuman (s : Int) : String :=
  if s = 0 ∨ s ≤ 0 then "0s"
  else
    let hours := s.fdiv 3600
    let minutes := (s % 3600).fdiv 60
    let seconds := s % 60
    if 0 < hours then toString hours ++ "h " ++ toString minutes ++ "m"
    else if 0 < minutes then toString minutes ++ "m " ++ toString seconds ++ "s"
    else toString seconds ++ "s"

/-- The `formatSecondsHuman` copy embedded in the dashboard webview
script (dashboard/webview.ts). -/
def formatSecondsHumanWeb (s : Int) : String :=
  if s = 0 ∨ s ≤ 0 then "0s"
  else
    let hours := s.fdiv 3600
    let minutes := (s % 3600).fdiv 60
    let seconds := s % 60
    if 0 < hours then toString hours ++ "h " ++ toString minutes ++ "m"
    else if 0 < minutes then toString minutes ++ "m " ++ toString seconds ++ "s"
    else toString seconds ++ "s"

/-! ### JSON values, `JSON.stringify(·, null, 2)` and `JSON.parse`

`Storage.exportToJson` serializes the loaded data with
`JSON.stringify(data, null, 2)` and `Storage.importFromJson` reads it
back with `JSON.parse`. JSON values are modelled structurally; numbers
are the nonnegative integers this data contains (accumulated whole
seconds), and object fields keep their JavaScript insertion order. -/

/-- A JSON value. -/
inductive Json where
  | null
  | bool (b : Bool)
  | num (n : Nat)
  | str (s : String)
  | arr (elems : List Json)
  | obj (fields : List (String × Json))
deriving Repr

/-- Decimal digit character. -/
def digitChar (n : Nat) : Char :=
  match n with
  | 0 => '0' | 1 => '1' | 2 => '2' | 3 => '3' | 4 => '4'
  | 5 => '5' | 6 => '6' | 7 => '7' | 8 => '8' | 9 => '9'
  | _ => '*'

/-- Lowercase hexadecimal digit character (as `JSON.stringify` emits in
`\u00..` escapes). -/
def hexDigit (n : Nat) : Char :=
  match n with
  | 0 => '0' | 1 => '1' | 2 => '2' | 3 => '3' | 4 => '4'
  | 5 => '5' | 6 => '6' | 7 => '7' | 8 => '8' | 9 => '9'
  | 10 => 'a' | 11 => 'b' | 12 => 'c' | 13 => 'd' | 14 => 'e' | 15 => 'f'
  | _ => '*'

/-- Decimal digits of a positive number, most significant first. -/
def natDigitsAux (n : Nat) : List Char :=
  if h : n = 0 then []
  else natDigitsAux (n / 10) ++ [digitChar (n % 10)]
decreasing_by exact Nat.div_lt_self (Nat.pos_of_ne_zero h) (by decide)

/-- Decimal rendering of a number, as `JSON.stringify` emits it. -/
def natDigits (n : Nat) : List Char :=
  if n = 0 then ['0'] else natDigitsAux n

/-- The escape `JSON.stringify` applies to one string character:
quote and backslash are backslash-escaped, the named control escapes
are used when available, other control characters become `\u00xy`, and
everything else is emitted verbatim. -/
def escChar (c : Char) : List Char :=
  if c = '"' then ['\\', '"']
  else if c = '\\' then ['\\', '\\']
  else if c = '\x08' then ['\\', 'b']
  else if c = '\x09' then ['\\', 't']
  else if c = '\x0a' then ['\\', 'n']
  else if c = '\x0c' then ['\\', 'f']
  else if c = '\x0d' then ['\\', 'r']
  else if c.toNat < 32 then
    ['\\', 'u', '0', '0', hexDigit (c.toNat / 16), hexDigit (c.toNat % 16)]
  else [c]

/-- The escaped body of a JSON string literal. -/
def escList (cs : List Char) : List Char :=
  cs.foldr (fun c acc => escChar c ++ acc) []

/-- A JSON string literal: quote, escaped body, quote. -/
def escString (s : String) : List Char :=
  '"' :: (escList s.data ++ ['"'])

/-- The `2 * lvl` spaces of indentation at nesting level `lvl`
(`JSON.stringify(·, null, 2)`). -/
def sp (lvl : Nat) : List Char :=
  List.replicate (2 * lvl) ' '

mutual

/-- `JSON.stringify(v, null, 2)` at nesting level `lvl`, as characters. -/
def renderJ (lvl : Nat) : Json → List Char
  | Json.null => ['n', 'u', 'l', 'l']
  | Json.bool true => ['t', 'r', 'u', 'e']
  | Json.bool false => ['f', 'a', 'l', 's', 'e']
  | Json.num n => natDigits n
  | Json.str s => escString s
  | Json.arr [] => ['[', ']']
  | Json.arr (x :: xs) =>
    '[' :: '\n' :: (sp (lvl + 1) ++ renderJ (lvl + 1) x ++ renderArrTail (lvl + 1) xs
      ++ '\n' :: (sp lvl ++ [']']))
  | Json.obj [] => ['\x7b', '\x7d']
  | Json.obj (kv :: kvs) =>
    '\x7b' :: '\n' :: (sp (lvl + 1) ++ renderField (lvl + 1) kv
      ++ renderObjTail (lvl + 1) kvs ++ '\n' :: (sp lvl ++ ['\x7d']))

/-- One `"key": value` member. -/
def renderField (lvl : Nat) (kv : String × Json) : List Char :=
  escString kv.1 ++ ':' :: ' ' :: renderJ lvl kv.2

/-- The remaining `,\n<indent><element>` pieces of an array body. -/
def renderArrTail (lvl : Nat) : List Json → List Char
  | [] => []
  | x :: xs => ',' :: '\n' :: (sp lvl ++ renderJ lvl x ++ renderArrTail lvl xs)

/-- The remaining `,\n<indent>"key": value` pieces of an object body. -/
def renderObjTail (lvl : Nat) : List (String × Json) → List Char
  | [] => []
  | kv :: kvs => ',' :: '\n' :: (sp lvl ++ renderField lvl kv ++ renderObjTail lvl kvs)

end

/-- `JSON.stringify(v, null, 2)`. -/
def stringifyPretty (v : Json) : String :=
  String.mk (renderJ 0 v)

/-- JSON insignificant whitespace. -/
def isWs (c : Char) : Bool :=
  c = ' ' || c = '\n' || c = '\t' || c = '\r'

/-- Skip insignificant whitespace. -/
def skipWs : List Char → List Char
  | [] => []
  | c :: cs => if isWs c then skipWs cs else c :: cs

/-- Value of a hexadecimal digit character. -/
def hexVal (c : Char) : Option Nat :=
  if '0' ≤ c ∧ c ≤ '9' then some (c.toNat - 48)
  else if 'a' ≤ c ∧ c ≤ 'f' then some (c.toNat - 87)
  else if 'A' ≤ c ∧ c ≤ 'F' then some (c.toNat - 55)
  else none

set_option maxHeartbeats 1000000 in
mutual

/-- Parse the body of a JSON string literal (the opening quote already
consumed), accumulating decoded characters in reverse. The fuel only
bounds the recursion (one unit per decoded character); callers pass the
remaining input length, which always suffices. -/
def parseStringAux : Nat → List Char → List Char → Option (String × List Char)
  | 0, _, _ => none
  | fuel + 1, acc, cs =>
    match cs with
    | [] => none
    | c :: rest => parseStringStep fuel acc c rest

/-- One step of string-body parsing: dispatch on the next character. -/
def parseStringStep (fuel : Nat) (acc : List Char) (c : Char) (rest : List Char) :
    Option (String × List Char) :=
  if c = '"' then some (String.mk acc.reverse, rest)
  else if c = '\\' then parseStringEsc fuel acc rest
  else if c.toNat < 32 then none
  else parseStringAux fuel (c :: acc) rest

/-- After a backslash: the escape designator. -/
def parseStringEsc (fuel : Nat) (acc : List Char) :
    List Char → Option (String × List Char)
  | [] => none
  | e :: rest1 => parseStringEscTok fuel acc e rest1

/-- Decode one escape designator. -/
def parseStringEscTok (fuel : Nat) (acc : List Char) (e : Char) (rest1 : List Char) :
    Option (String × List Char) :=
  if e = '"' then parseStringAux fuel ('"' :: acc) rest1
  else if e = '\\' then parseStringAux fuel ('\\' :: acc) rest1
  else if e = '/' then parseStringAux fuel ('/' :: acc) rest1
  else if e = 'b' then parseStringAux fuel ('\x08' :: acc) rest1
  else if e = 'f' then parseStringAux fuel ('\x0c' :: acc) rest1
  else if e = 'n' then parseStringAux fuel ('\x0a' :: acc) rest1
  else if e = 'r' then parseStringAux fuel ('\x0d' :: acc) rest1
  else if e = 't' then parseStringAux fuel ('\x09' :: acc) rest1
  else if e = 'u' then parseStringU fuel acc rest1
  else none

/-- A `\u` escape: four hexadecimal digits. -/
def parseStringU (fuel : Nat) (acc : List Char) :
    List Char → Option (String × List Char)
  | h1 :: h2 :: h3 :: h4 :: rest2 =>
    parseStringHex fuel acc (hexVal h1) (hexVal h2) (hexVal h3) (hexVal h4) rest2
  | _ => none

/-- Combine four hexadecimal digit values into a code point. -/
def parseStringHex (fuel : Nat) (acc : List Char) :
    Option Nat → Option Nat → Option Nat → Option Nat → List Char →
      Option (String × List Char)
  | some a, some b, some c2, some d, rest2 =>
    let code := ((a * 16 + b) * 16 + c2) * 16 + d
    if code < 55296 then parseStringAux fuel (Char.ofNat code :: acc) rest2
    else none
  | _, _, _, _, _ => none

end

/-- Parse a run of decimal digits, extending the accumulated value. -/
def parseDigitsAcc (acc : Nat) : List Char → Nat × List Char
  | [] => (acc, [])
  | c :: cs =>
    if c.isDigit then parseDigitsAcc (acc * 10 + (c.toNat - 48)) cs
    else (acc, c :: cs)

mutual

/-- Parse one JSON value (fuel-bounded recursion depth): skip
whitespace and dispatch on the first character. -/
def parseVal : Nat → List Char → Option (Json × List Char)
  | 0, _ => none
  | fuel + 1, cs =>
    match skipWs cs with
    | [] => none
    | c :: rest => parseTok fuel c rest

/-- Dispatch on the first significant character of a value. -/
def parseTok (fuel : Nat) (c : Char) (rest : List Char) : Option (Json × List Char) :=
  if c = 'n' then
    match rest with
    | 'u' :: 'l' :: 'l' :: r => some (Json.null, r)
    | _ => none
  else if c = 't' then
    match rest with
    | 'r' :: 'u' :: 'e' :: r => some (Json.bool true, r)
    | _ => none
  else if c = 'f' then
    match rest with
    | 'a' :: 'l' :: 's' :: 'e' :: r => some (Json.bool false, r)
    | _ => none
  else if c = '"' then
    match parseStringAux (rest.length + 1) [] rest with
    | some (s, rest2) => some (Json.str s, rest2)
    | none => none
  else if c = '[' then
    match skipWs rest with
    | [] => none
    | c2 :: rest2 => parseArrFirst fuel c2 rest2
  else if c = '\x7b' then
    match skipWs rest with
    | [] => none
    | c2 :: rest2 => parseObjFirst fuel c2 rest2
  else if c.isDigit then
    let p := parseDigitsAcc (c.toNat - 48) rest
    some (Json.num p.1, p.2)
  else none

/-- After `[`: the empty array or the first element and the tail. -/
def parseArrFirst (fuel : Nat) (c2 : Char) (rest2 : List Char) :
    Option (Json × List Char) :=
  if c2 = ']' then some (Json.arr [], rest2)
  else
    match parseVal fuel (c2 :: rest2) with
    | some (v, rest3) =>
      match parseArrTailP fuel rest3 with
      | some (vs, rest4) => some (Json.arr (v :: vs), rest4)
      | none => none
    | none => none

/-- After the brace: the empty object or the first member and the tail. -/
def parseObjFirst (fuel : Nat) (c2 : Char) (rest2 : List Char) :
    Option (Json × List Char) :=
  if c2 = '\x7d' then some (Json.obj [], rest2)
  else
    match parseMember fuel c2 rest2 with
    | some (kv, rest5) =>
      match parseObjTailP fuel rest5 with
      | some (kvs, rest6) => some (Json.obj (kv :: kvs), rest6)
      | none => none
    | none => none

/-- One `"key": value` member, starting at its first character. -/
def parseMember (fuel : Nat) (c2 : Char) (rest2 : List Char) :
    Option ((String × Json) × List Char) :=
  if c2 = '"' then
    match parseStringAux (rest2.length + 1) [] rest2 with
    | some (k, rest3) => parseMemberColon fuel k rest3
    | none => none
  else none

/-- The `: value` part of a member, after its key. -/
def parseMemberColon (fuel : Nat) (k : String) (rest3 : List Char) :
    Option ((String × Json) × List Char) :=
  match skipWs rest3 with
  | ':' :: rest4 =>
    (match parseVal fuel rest4 with
     | some (v, rest5) => some ((k, v), rest5)
     | none => none)
  | _ => none

/-- Parse the rest of an array body: `]` or `, value ...`. -/
def parseArrTailP : Nat → List Char → Option (List Json × List Char)
  | 0, _ => none
  | fuel + 1, cs =>
    match skipWs cs with
    | [] => none
    | c :: rest => parseArrTok fuel c rest

/-- Dispatch after an array element: close or separator. -/
def parseArrTok (fuel : Nat) (c : Char) (rest : List Char) :
    Option (List Json × List Char) :=
  if c = ']' then some ([], rest)
  else if c = ',' then
    match parseVal fuel rest with
    | some (v, rest2) =>
      match parseArrTailP fuel rest2 with
      | some (vs, rest3) => some (v :: vs, rest3)
      | none => none
    | none => none
  else none

/-- Parse the rest of an object body: the closing brace or
`, "key": value ...`. -/
def parseObjTailP : Nat → List Char → Option (List (String × Json) × List Char)
  | 0, _ => none
  | fuel + 1, cs =>
    match skipWs cs with
    | [] => none
    | c :: rest => parseObjTok fuel c rest

/-- Dispatch after an object member: close or separator and next member. -/
def parseObjTok (fuel : Nat) (c : Char) (rest : List Char) :
    Option (List (String × Json) × List Char) :=
  if c = '\x7d' then some ([], rest)
  else if c = ',' then
    match skipWs rest with
    | [] => none
    | c2 :: rest2 =>
      match parseMember fuel c2 rest2 with
      | some (kv, rest5) =>
        match parseObjTailP fuel rest5 with
        | some (kvs, rest6) => some (kv :: kvs, rest6)
        | none => none
      | none => none
  else none

end

/-- `JSON.parse`: parse one value and require only trailing whitespace. -/
def jsonParse (s : String) : Option Json :=
  match parseVal (s.length + 1) s.data with
  | some (v, rest) => if skipWs rest = [] then some v else none
  | none => none

/-! ### Storage (`src/storage.ts`)

`Storage.save` is a debounced write: it records the data in
`pendingData` and (re)schedules a 1-second timer with `setTimeout`,
first `clearTimeout`-ing the timer recorded in `saveTimer`; the timer
callback reads the then-current `pendingData`, awaits
`globalState.update("timezap.data", pendingData)`, and only after that
await resumes does it clear `saveTimer` and `pendingData` (and resolve
the promise `save` returned).

Two models of this are given.

The *atomic* machine (`StorageEvent`/`storageStep`) collapses the whole
timer callback into one `fire` event. It is exact for histories in
which no `save` call lands between a callback starting and finishing —
in particular for the sequential export-then-import composition claim
(C8) — but it is not the whole program: across the callback's `await`,
`saveTimer` and `pendingData` are *not* cleared yet.

The *refined* machine (`RStorageEvent`/`rStorageStep`) therefore splits
the callback: `fireArmed`/`fireOrphan` is the callback starting (it
reads `pendingData` and invokes `globalState.update` with it — writing
`undefined`, modelled as `none`, removes the key), and `fireEnd` is the
callback resuming after the await (it sets `saveTimer` and
`pendingData` to `undefined` unconditionally). When a `save` lands
between the two, its `clearTimeout` is a no-op (the old timer has
already fired) and the timer it schedules is recorded in `saveTimer` —
which the resuming callback then blindly clears, *orphaning* the live
timer. An orphaned timer still fires later, with `pendingData` already
cleared, and writes `undefined`. The state tracks whether the timer
recorded in `saveTimer` is still scheduled (`armed`), how many orphaned
timers are scheduled (`orphans`), and how many callbacks sit inside
their await (`inFlight`). -/

/-- An observable `Storage` event of the atomic machine. -/
inductive StorageEvent where
  | save (d : Json)
  | fire

/-- Atomic-machine `Storage` state: the debounce cell, the value the
host key-value store holds under `"timezap.data"`, and the log of
`globalState.update` writes (key and value, oldest first). -/
structure StorageState where
  pendingData : Option Json
  store : Option Json
  written : List (String × Json)

/-- One atomic `Storage` step: `save d` overwrites the debounce cell
(the old timer is cancelled and a new one scheduled); `fire` performs
the whole debounce callback at once — the `globalState.update` with the
current `pendingData` and the clearing of the cell. This is the
un-interleaved abstraction; the refined machine below exhibits the
behaviors it omits. -/
def storageStep (st : StorageState) : StorageEvent → StorageState
  | StorageEvent.save d => { st with pendingData := some d }
  | StorageEvent.fire =>
    match st.pendingData with
    | some d =>
      { pendingData := none
        store := some d
        written := st.written ++ [("timezap.data", d)] }
    | none => st

/-- An observable `Storage` event of the refined machine: a `save`
call, the recorded (armed) timer firing, an orphaned timer firing, and
a callback resuming after its `await globalState.update`. -/
inductive RStorageEvent where
  | save (d : Json)
  | fireArmed
  | fireOrphan
  | fireEnd

/-- Refined `Storage` state. `armed`: the timer recorded in `saveTimer`
is still scheduled. `orphans`: scheduled timers no longer recorded in
`saveTimer` (their `clearTimeout` handle is lost). `inFlight`:
callbacks currently awaiting their `globalState.update`. Written values
are `Option Json` because the callback writes whatever `pendingData`
holds — `undefined` included, which removes the key from the host
store. -/
structure RStorageState where
  pendingData : Option Json
  armed : Bool
  orphans : Nat
  inFlight : Nat
  store : Option Json
  written : List (String × Option Json)

/-- The refined state before any save. -/
def rInitStorage : RStorageState :=
  { pendingData := none, armed := false, orphans := 0, inFlight := 0,
    store := none, written := [] }

/-- One refined `Storage` step.

* `save d` (storage.ts:33-37): sets `pendingData`, cancels the recorded
  timer if it is still scheduled, schedules and records a fresh one.
* `fireArmed` / `fireOrphan` (storage.ts:38-40): a scheduled timer
  fires; the callback reads `pendingData` and invokes
  `globalState.update("timezap.data", pendingData)` with that value
  (writing `undefined` removes the key), then awaits it.
* `fireEnd` (storage.ts:44-46): the callback resumes after its await
  and unconditionally sets `saveTimer` and `pendingData` to
  `undefined`; if `saveTimer` recorded a still-scheduled timer (a
  `save` landed during the await), that timer is orphaned. -/
def rStorageStep (st : RStorageState) : RStorageEvent → RStorageState
  | RStorageEvent.save d => { st with pendingData := some d, armed := true }
  | RStorageEvent.fireArmed =>
    { st with
      armed := false
      store := st.pendingData
      written := st.written ++ [("timezap.data", st.pendingData)]
      inFlight := st.inFlight + 1 }
  | RStorageEvent.fireOrphan =>
    { st with
      orphans := st.orphans - 1
      store := st.pendingData
      written := st.written ++ [("timezap.data", st.pendingData)]
      inFlight := st.inFlight + 1 }
  | RStorageEvent.fireEnd =>
    { st with
      inFlight := st.inFlight - 1
      orphans := if st.armed then st.orphans + 1 else st.orphans
      armed := false
      pendingData := none }

/-- Run a refined trace. -/
def rRunStorage (st : RStorageState) (evs : List RStorageEvent) : RStorageState :=
  evs.foldl rStorageStep st

/-- Trace well-formedness for the refined machine: an armed fire needs
the recorded timer scheduled, an orphan fire needs an orphaned timer
scheduled, and a callback can only resume if one is in flight. -/
def rStorageWF (st : RStorageState) : List RStorageEvent → Bool
  | [] => true
  | e :: rest =>
    (match e with
     | RStorageEvent.save _ => true
     | RStorageEvent.fireArmed => st.armed
     | RStorageEvent.fireOrphan => decide (0 < st.orphans)
     | RStorageEvent.fireEnd => decide (0 < st.inFlight))
      && rStorageWF (rStorageStep st e) rest

/-- One step of the latest-save fold: a `save` overwrites the
accumulator, every other event keeps it. -/
def latestUpd (acc : Option Json) (e : RStorageEvent) : Option Json :=
  match e with
  | RStorageEvent.save d => some d
  | _ => acc

/-- The argument of the most recent `save` call of a refined trace. -/
def rLatestSave (evs : List RStorageEvent) : Option Json :=
  evs.foldl latestUpd none

/-- Single-threaded un-interleaved scheduling: every firing callback
runs to completion (its `fireEnd` comes immediately next) before any
other event — i.e. no `save` lands while a write is in flight. -/
def atomicSched : List RStorageEvent → Bool
  | [] => true
  | RStorageEvent.fireArmed :: RStorageEvent.fireEnd :: rest => atomicSched rest
  | RStorageEvent.fireArmed :: _ => false
  | _ :: rest => atomicSched rest

/-- `Storage.load()`: `globalState.get(key, {})`. -/
def loadStorage (st : StorageState) : Json :=
  st.store.getD (Json.obj [])

/-- `Storage.exportToJson()`: `JSON.stringify(await load(), null, 2)`. -/
def exportToJson (st : StorageState) : String :=
  stringifyPretty (loadStorage st)

/-- `Storage.importFromJson(json)`: `JSON.parse` the argument and hand
the result to `save` (the debounced write); `none` when parsing throws. -/
def importFromJson (st : StorageState) (json : String) : Option StorageState :=
  (jsonParse json).map (fun d => storageStep st (StorageEvent.save d))

/-! ### The shape of the persisted aggregation state -/

/-- A JSON atom: neither an object nor an array. -/
def jsonIsAtom : Json → Bool
  | Json.obj _ => false
  | Json.arr _ => false
  | _ => true

/-- A flat key-value map: an object all of whose values are atoms
(a single-level mapping with no nested structure). -/
def isFlatMap : Json → Bool
  | Json.obj kvs => kvs.all (fun kv => jsonIsAtom kv.2)
  | _ => false

/-- JSON encoding of a numeric dictionary (`byFile` / `byFolder`). -/
def natMapToJson (m : List (String × Nat)) : Json :=
  Json.obj (m.map (fun kv => (kv.1, Json.num kv.2)))

/-- JSON encoding of a day bucket. -/
def bucketToJson (b : DayBucket) : Json :=
  Json.obj
    [("totalSeconds", Json.num b.totalSeconds),
     ("byFile", natMapToJson b.byFile),
     ("byFolder", natMapToJson b.byFolder)]

/-- JSON encoding of a workspace record. -/
def wsToJson (w : WorkspaceEntry) : Json :=
  Json.obj
    [("meta", Json.obj [("path", Json.str w.meta.path)]),
     ("dates", Json.obj (w.dates.map (fun kv => (kv.1, bucketToJson kv.2))))]

/-- The JSON value `TimeService.persist` hands to `Storage.save`: the
aggregation state as the JavaScript object it is. -/
def dataToJson (d : PersistedData) : Json :=
  match d.workspaceFolders with
  | none => Json.obj []
  | some m =>
    Json.obj [("workspaceFolders", Json.obj (m.map (fun kv => (kv.1, wsToJson kv.2))))]

/-! ### Statement-side definitions -/

mutual

/-- Node count of a JSON value, a bound on the parser fuel it needs. -/
def sizeJ : Json → Nat
  | Json.null => 1
  | Json.bool _ => 1
  | Json.num _ => 1
  | Json.str _ => 1
  | Json.arr xs => 1 + sizeArr xs
  | Json.obj kvs => 1 + sizeObj kvs

/-- Node count of an array body. -/
def sizeArr : List Json → Nat
  | [] => 0
  | x :: xs => 1 + sizeJ x + sizeArr xs

/-- Node count of an object body. -/
def sizeObj : List (String × Json) → Nat
  | [] => 0
  | kv :: kvs => 1 + sizeJ kv.2 + sizeObj kvs

end

/-- The continuation after a rendered value never starts with a digit
(so a rendered number is parsed back in full). -/
def nonDigitHead : List Char → Bool
  | [] => true
  | c :: _ => !c.isDigit

/-- Print/parse roundtrip property of one JSON value: with enough fuel,
parsing its pretty rendering followed by any non-digit-headed
continuation returns exactly the value and the continuation. -/
def roundOK (v : Json) : Prop :=
  ∀ (lvl fuel : Nat) (rest : List Char),
    sizeJ v ≤ fuel → nonDigitHead rest = true →
    parseVal fuel (renderJ lvl v ++ rest) = some (v, rest)

/-- Balance of a day bucket: the recorded total equals the sum of the
per-file bucket values plus the sum of the per-folder bucket values. -/
def bucketBalanced (b : DayBucket) : Prop :=
  b.totalSeconds = sumVals b.byFile + sumVals b.byFolder

/-- Balance of a whole data set: every stored day bucket is balanced. -/
def dataBalanced (d : PersistedData) : Prop :=
  ∀ kvw ∈ d.workspaceFolders.getD [], ∀ kvd ∈ kvw.2.dates, bucketBalanced kvd.2

/-- Statement-side (from the claim text): the recorded total for a
workspace and date, 0 when that date has no record. -/
def recordedTotalFor (loaded : PersistedData) (wsKey key : String) : Nat :=
  match lookupBucket loaded wsKey key with
  | some b => b.totalSeconds
  | none => 0

/-- Statement-side (from the claim text): entry `j` (0-based, ascending)
of a contiguous `n`-day range ending today: the day `n - 1 - j` days
before today, carrying its recorded total or 0. -/
def specRangeEntry (loaded : PersistedData) (wsKey : String) (todayMs : Int)
    (n j : Nat) : SeriesEntry :=
  let key := dateKeyFor (todayMs - ((n - 1 - j : Nat) : Int) * 86400000)
  { date := key, totalSeconds := recordedTotalFor loaded wsKey key }

/-- Statement-side (from the claim text): the recorded day entries of a
workspace (empty when the workspace has no record). -/
def recordedEntries (loaded : PersistedData) (wsKey : String) : List SeriesEntry :=
  match lookup (loaded.workspaceFolders.getD []) wsKey with
  | some ws => dayEntriesOf ws
  | none => []

/-! ### Concrete sample inputs for the closed instances -/

/-- A concrete running service state: workspace `file:///w` and active
file `/w/src/a.ts`, one second of history, defaults otherwise. -/
def sampleState : ServiceState :=
  { running := true
    data := { workspaceFolders := none }
    lastActivity := 4000
    lastTick := 0
    activeFile := some "/w/src/a.ts"
    activeWorkspace := some "file:///w"
    idle := false
    tickTimer := some 1000
    persistTimer := some 30000
    config := defaultConfig }

/-- A small concrete data set: one workspace, two recorded days. -/
def sampleData : PersistedData :=
  { workspaceFolders := some
      [("untitled",
        { meta := { path := "untitled" }
          dates :=
            [("1970-01-08", { totalSeconds := 600, byFile := [], byFolder := [("src", 600)] }),
             ("1970-01-05", { totalSeconds := 45, byFile := [], byFolder := [(".", 45)] })] })] }

/-- A concrete JSON document exercising every constructor and the
string escapes. -/
def sampleJson : Json :=
  Json.obj
    [("workspaceFolders",
      Json.obj [("file:///w",
        Json.obj [("meta", Json.obj [("path", Json.str "file:///w")]),
                  ("dates", Json.obj [("2025-10-11",
                    Json.obj [("totalSeconds", Json.num 3600),
                              ("byFile", Json.obj []),
                              ("byFolder", Json.obj [("src", Json.num 3600)])])])])]),
     ("note", Json.str "a\"b\\c\nd\x01e"),
     ("list", Json.arr [Json.num 0, Json.null, Json.bool true, Json.bool false,
                        Json.str "", Json.arr [], Json.num 120])]

/-! ## Lemmas: dictionary operations -/

theorem lookup_setKey_self {α : Type} (m : List (String × α)) (k : String) (v : α) :
    lookup (setKey m k v) k = some v := by
  induction m with
  | nil => simp [setKey, lookup]
  | cons kv rest ih =>
    obtain ⟨k2, v2⟩ := kv
    by_cases h : k2 = k
    · simp [setKey, lookup, h]
    · simp [setKey, lookup, h, ih]

theorem lookup_setKey_ne {α : Type} (m : List (String × α)) (k k2 : String) (v : α)
    (h : k2 ≠ k) : lookup (setKey m k v) k2 = lookup m k2 := by
  induction m with
  | nil => simp [setKey, lookup, Ne.symm h]
  | cons kv rest ih =>
    obtain ⟨k3, v3⟩ := kv
    by_cases h3 : k3 = k
    · subst h3
      simp [setKey, lookup, Ne.symm h]
    · simp [setKey, lookup, h3, ih]

theorem lookup_addTo_self (m : List (String × Nat)) (k : String) (v : Nat) :
    lookup (addTo m k v) k = some ((lookup m k).getD 0 + v) :=
  lookup_setKey_self m k _

theorem lookup_addTo_ne (m : List (String × Nat)) (k k2 : String) (v : Nat)
    (h : k2 ≠ k) : lookup (addTo m k v) k2 = lookup m k2 :=
  lookup_setKey_ne m k k2 _ h

theorem sumVals_addTo (m : List (String × Nat)) (k : String) (v : Nat) :
    sumVals (addTo m k v) = sumVals m + v := by
  induction m with
  | nil => simp [addTo, setKey, lookup, sumVals]
  | cons kv rest ih =>
    obtain ⟨k2, v2⟩ := kv
    by_cases h : k2 = k
    · subst h
      simp [addTo, lookup, setKey, sumVals]
      omega
    · have h2 : lookup ((k2, v2) :: rest) k = lookup rest k := by simp [lookup, h]
      have hstep : addTo ((k2, v2) :: rest) k v = (k2, v2) :: addTo rest k v := by
        simp [addTo, h2, setKey, h]
      rw [hstep]
      simp only [sumVals, List.map_cons, List.sum_cons] at *
      omega

/-! ## Lemmas: the tick transition -/

theorem fdiv_thousand_pos {x : Int} (h : 1000 ≤ x) : 0 < x.fdiv 1000 := by
  rw [Int.fdiv_eq_ediv _ (by omega : (0 : Int) ≤ 1000)]
  omega

theorem fdiv_thousand_nonpos {x : Int} (h : x < 1000) : x.fdiv 1000 ≤ 0 := by
  rw [Int.fdiv_eq_ediv _ (by omega : (0 : Int) ≤ 1000)]
  omega

/-- A tick on a stopped service does nothing. -/
theorem onTick_not_running (s : ServiceState) (now : Int) (h : s.running = false) :
    onTick s now = s := by
  simp [onTick, h]

/-- A tick taken while the idle condition holds only sets the idle flag
and moves the tick baseline. -/
theorem onTick_idle_run (s : ServiceState) (now : Int) (hr : s.running = true)
    (hidle : (s.config.idleTimeoutSeconds : Int) * 1000 ≤ now - s.lastActivity) :
    onTick s now = { s with idle := true, lastTick := now } := by
  simp [onTick, hr, hidle]

/-- A non-idle tick with less than one whole second elapsed is a no-op. -/
theorem onTick_noDelta (s : ServiceState) (now : Int) (hr : s.running = true)
    (hni : now - s.lastActivity < (s.config.idleTimeoutSeconds : Int) * 1000)
    (hd : (now - s.lastTick).fdiv 1000 ≤ 0) :
    onTick s now = s := by
  simp [onTick, hr, not_le.mpr hni, hd]

/-- A non-idle tick with at least one whole second elapsed accumulates
through `addSeconds` and moves the tick baseline. -/
theorem onTick_accum (s : ServiceState) (now : Int) (hr : s.running = true)
    (hni : now - s.lastActivity < (s.config.idleTimeoutSeconds : Int) * 1000)
    (hd : 0 < (now - s.lastTick).fdiv 1000) :
    onTick s now =
      { s with
        lastTick := now
        data := addSeconds s.data s.config.aggregateBy (s.activeWorkspace.getD "untitled")
          (s.activeFile.getD "untitled") (dateKeyFor now)
          ((now - s.lastTick).fdiv 1000).toNat } := by
  simp [onTick, hr, not_le.mpr hni, not_le.mpr hd]

/-- What `addSeconds` stores under its workspace and day keys. -/
theorem lookupBucket_addSeconds (d : PersistedData) (aggBy : AggregateBy)
    (wsKey fileKey day : String) (delta : Nat) :
    lookupBucket (addSeconds d aggBy wsKey fileKey day delta) wsKey day =
      some (bumpBucket ((lookupBucket d wsKey day).getD zeroBucket) aggBy wsKey fileKey delta) := by
  unfold addSeconds lookupBucket
  cases hws : lookup (d.workspaceFolders.getD []) wsKey with
  | none => simp [hws, lookup_setKey_self, lookup]
  | some ws => simp [hws, lookup_setKey_self]

/-- `addSeconds` touches no other workspace/day pair. -/
theorem lookupBucket_addSeconds_frame (d : PersistedData) (aggBy : AggregateBy)
    (wsKey fileKey day wsKey2 day2 : String) (delta : Nat)
    (h : ¬(wsKey2 = wsKey ∧ day2 = day)) :
    lookupBucket (addSeconds d aggBy wsKey fileKey day delta) wsKey2 day2 =
      lookupBucket d wsKey2 day2 := by
  by_cases hw : wsKey2 = wsKey
  · subst hw
    have hd : day2 ≠ day := fun hh => h ⟨rfl, hh⟩
    simp only [addSeconds, lookupBucket, Option.getD_some]
    cases hws : lookup (d.workspaceFolders.getD []) wsKey2 with
    | none => simp [hws, lookup_setKey_self, lookup_setKey_ne _ _ _ _ hd, lookup, Ne.symm hd]
    | some ws => simp [hws, lookup_setKey_self, lookup_setKey_ne _ _ _ _ hd]
  · simp only [addSeconds, lookupBucket, Option.getD_some]
    rw [lookup_setKey_ne _ _ _ _ hw]

/-- The bucket update adds the delta to the total and never decreases
the requirement that the total equals the sum of both maps. -/
theorem bucketBalanced_bump (b : DayBucket) (agg : AggregateBy) (wk fk : String)
    (delta : Nat) (h : bucketBalanced b) :
    bucketBalanced (bumpBucket b agg wk fk delta) := by
  cases agg <;>
    simp only [bumpBucket, bucketBalanced, sumVals_addTo] at * <;> omega

/-- The bucket update adds the delta to `totalSeconds`. -/
theorem bumpBucket_totalSeconds (b : DayBucket) (agg : AggregateBy) (wk fk : String)
    (delta : Nat) :
    (bumpBucket b agg wk fk delta).totalSeconds = b.totalSeconds + delta := by
  cases agg <;> rfl

/-! ## Claim theorems -/

/-- Claim C9: the status-bar and dashboard time formatter returns `0s`
for nonpositive inputs, `<h>h <m>m` (dropping leftover seconds) from
one hour up, `<m>m <r>s` with `r = s mod 60` from one minute up, and
`<s>s` below one minute; the webview copy computes the same function. -/
theorem spec_c9 (s : Int) :
    (s ≤ 0 → formatSecondsHuman s = "0s") ∧
    (3600 ≤ s →
      formatSecondsHuman s =
        toString (s.fdiv 3600) ++ "h " ++ toString ((s % 3600).fdiv 60) ++ "m") ∧
    (60 ≤ s → s < 3600 →
      formatSecondsHuman s =
        toString ((s % 3600).fdiv 60) ++ "m " ++ toString (s % 60) ++ "s") ∧
    (0 < s → s < 60 → formatSecondsHuman s = toString s ++ "s") ∧
    formatSecondsHumanWeb s = formatSecondsHuman s := by
  refine ⟨fun h => ?_, fun h => ?_, fun h h2 => ?_, fun h h2 => ?_, rfl⟩
  · simp [formatSecondsHuman, Or.inr h]
  · have hpos : ¬(s = 0 ∨ s ≤ 0) := by omega
    have h1 : (0 : Int) < s.fdiv 3600 := by
      rw [Int.fdiv_eq_ediv _ (by omega)]; omega
    simp only [formatSecondsHuman, if_neg hpos, if_pos h1]
  · have hpos : ¬(s = 0 ∨ s ≤ 0) := by omega
    have h1 : ¬(0 : Int) < s.fdiv 3600 := by
      rw [Int.fdiv_eq_ediv _ (by omega)]; omega
    have hm : (0 : Int) < (s % 3600).fdiv 60 := by
      rw [Int.fdiv_eq_ediv _ (by omega)]; omega
    simp only [formatSecondsHuman, if_neg hpos, if_neg h1, if_pos hm]
  · have hpos : ¬(s = 0 ∨ s ≤ 0) := by omega
    have h1 : ¬(0 : Int) < s.fdiv 3600 := by
      rw [Int.fdiv_eq_ediv _ (by omega)]; omega
    have hm : ¬(0 : Int) < (s % 3600).fdiv 60 := by
      rw [Int.fdiv_eq_ediv _ (by omega)]; omega
    have hs : s % 60 = s := by omega
    simp only [formatSecondsHuman, if_neg hpos, if_neg h1, if_neg hm, hs]

/-- Closed instance of C9 at `s = 3725` (one hour, two minutes, five
leftover seconds discarded). -/
theorem spec_c9_witness :
    (3600 : Int) ≤ 3725 ∧
      formatSecondsHuman 3725 =
        toString ((3725 : Int).fdiv 3600) ++ "h " ++
          toString (((3725 : Int) % 3600).fdiv 60) ++ "m" :=
  ⟨by decide, (spec_c9 3725).2.1 (by decide)⟩

/-- Counterexample to claim C2 as stated: with the default
`idleTimeoutSeconds = 300` and exactly 300 elapsed seconds since the
last activity (not "more than"), the tick does mark the session idle —
the code tests `now - lastActivity >= idleTimeoutSeconds * 1000`, so at
exactly N seconds the session is already idle, contradicting the
claimed "at exactly N elapsed seconds or fewer the session is not
idle". -/
theorem spec_c2_counterexample :
    ({ sampleState with lastActivity := 0 } : ServiceState).config.idleTimeoutSeconds = 300 ∧
    (onTick { sampleState with lastActivity := 0 } 300000).idle = true := by
  exact ⟨rfl, by decide⟩

/-- Claim C2 (amended): the tick marks the session idle exactly when at
least `N = config.idleTimeoutSeconds` seconds (in ms) have elapsed
since the last recorded activity; with strictly fewer elapsed the idle
flag is left as it was (never set); and any recorded activity event
clears the idle state. -/
theorem spec_c2 (s : ServiceState) (now t : Int) (hr : s.running = true) :
    ((s.config.idleTimeoutSeconds : Int) * 1000 ≤ now - s.lastActivity →
      (onTick s now).idle = true) ∧
    (now - s.lastActivity < (s.config.idleTimeoutSeconds : Int) * 1000 →
      (onTick s now).idle = s.idle) ∧
    (markActivity s t).idle = false := by
  refine ⟨fun h => ?_, fun h => ?_, ?_⟩
  · rw [onTick_idle_run s now hr h]
  · by_cases hd : (now - s.lastTick).fdiv 1000 ≤ 0
    · rw [onTick_noDelta s now hr h hd]
    · rw [onTick_accum s now hr h (not_le.mp hd)]
  · by_cases h : s.idle <;> simp [markActivity, h]

/-- Closed instance of C2 (amended): an overdue tick sets the idle
flag, a prompt tick leaves it cleared, and an activity event clears it. -/
theorem spec_c2_witness :
    (onTick { sampleState with lastActivity := -300000000 } 0).idle = true ∧
    (onTick sampleState 5000).idle = sampleState.idle ∧
    (markActivity sampleState 7).idle = false :=
  ⟨(spec_c2 { sampleState with lastActivity := -300000000 } 0 7 rfl).1 (by decide),
   (spec_c2 sampleState 5000 7 rfl).2.1 (by decide),
   (spec_c2 sampleState 5000 7 rfl).2.2⟩

/-- Claim C3: a tick taken while the idle condition holds leaves the
accumulated data map completely unchanged; the whole effect of the tick
is to set the idle flag and advance the internal `lastTick` position. -/
theorem spec_c3 (s : ServiceState) (now : Int) (hr : s.running = true)
    (hidle : (s.config.idleTimeoutSeconds : Int) * 1000 ≤ now - s.lastActivity) :
    (onTick s now).data = s.data ∧
    onTick s now = { s with idle := true, lastTick := now } := by
  have h := onTick_idle_run s now hr hidle
  exact ⟨by rw [h], h⟩

/-- Closed instance of C3: an idle tick on a concrete state only flags
idle and moves `lastTick`. -/
theorem spec_c3_witness :
    (onTick { sampleState with lastActivity := -300000000 } 12345).data =
      ({ sampleState with lastActivity := -300000000 } : ServiceState).data ∧
    onTick { sampleState with lastActivity := -300000000 } 12345 =
      { ({ sampleState with lastActivity := -300000000 } : ServiceState) with
          idle := true, lastTick := 12345 } :=
  spec_c3 { sampleState with lastActivity := -300000000 } 12345 rfl (by decide)

/-- Claim C5: `start()` installs the 1000 ms tick timer; a non-idle tick
accumulates exactly `Math.floor((now - lastTick) / 1000)` seconds into
the active bucket and moves `lastTick` to `now`; and when less than one
full second has elapsed the state — in particular `lastTick` — is left
unchanged, so the fractional remainder carries over to a later tick. -/
theorem spec_c5 (s : ServiceState) (now : Int) :
    (s.running = false → (start s now).tickTimer = some 1000) ∧
    (s.running = true →
      now - s.lastActivity < (s.config.idleTimeoutSeconds : Int) * 1000 →
      1000 ≤ now - s.lastTick →
      ∃ b,
        lookupBucket (onTick s now).data (s.activeWorkspace.getD "untitled")
            (dateKeyFor now) = some b ∧
        b.totalSeconds =
          ((lookupBucket s.data (s.activeWorkspace.getD "untitled")
              (dateKeyFor now)).getD zeroBucket).totalSeconds +
            ((now - s.lastTick).fdiv 1000).toNat ∧
        (onTick s now).lastTick = now) ∧
    (s.running = true →
      now - s.lastActivity < (s.config.idleTimeoutSeconds : Int) * 1000 →
      0 ≤ now - s.lastTick → now - s.lastTick < 1000 →
      onTick s now = s) := by
  refine ⟨fun h => ?_, fun hr hni hsec => ?_, fun hr hni h0 h1 => ?_⟩
  · simp [start, h]
  · rw [onTick_accum s now hr hni (fdiv_thousand_pos hsec)]
    rw [lookupBucket_addSeconds]
    exact ⟨_, rfl, by rw [bumpBucket_totalSeconds], rfl⟩
  · exact onTick_noDelta s now hr hni (fdiv_thousand_nonpos h1)

/-- Closed instance of C5: starting a stopped service installs the
1-second tick; a 5-second-overdue tick adds 5 seconds; a 999 ms tick is
a no-op. -/
theorem spec_c5_witness :
    (start { sampleState with running := false } 0).tickTimer = some 1000 ∧
    (∃ b,
      lookupBucket (onTick sampleState 5000).data
          (sampleState.activeWorkspace.getD "untitled") (dateKeyFor 5000) = some b ∧
      b.totalSeconds =
        ((lookupBucket sampleState.data (sampleState.activeWorkspace.getD "untitled")
            (dateKeyFor 5000)).getD zeroBucket).totalSeconds +
          (((5000 : Int) - sampleState.lastTick).fdiv 1000).toNat ∧
      (onTick sampleState 5000).lastTick = 5000) ∧
    onTick { sampleState with lastTick := 4001 } 5000 =
      { sampleState with lastTick := 4001 } :=
  ⟨(spec_c5 { sampleState with running := false } 0).1 rfl,
   (spec_c5 sampleState 5000).2.1 rfl (by decide) (by decide),
   (spec_c5 { sampleState with lastTick := 4001 } 5000).2.2 rfl (by decide) (by decide)
     (by decide)⟩

/-- Claim C1: a non-idle tick with at least one whole elapsed second
adds the elapsed whole seconds to the active workspace record (key
`untitled` when there is none) under the current calendar day — to the
day totals and to exactly one bucket: `byFile[activeFile]` when
aggregating by file, `byFolder[top-level folder of the active file
relative to the workspace root]` otherwise, the other map untouched. -/
theorem spec_c1 (s : ServiceState) (now : Int) (hr : s.running = true)
    (hni : now - s.lastActivity < (s.config.idleTimeoutSeconds : Int) * 1000)
    (hsec : 1000 ≤ now - s.lastTick) :
    ∃ b,
      lookupBucket (onTick s now).data (s.activeWorkspace.getD "untitled")
          (dateKeyFor now) = some b ∧
      b.totalSeconds =
        ((lookupBucket s.data (s.activeWorkspace.getD "untitled")
            (dateKeyFor now)).getD zeroBucket).totalSeconds +
          ((now - s.lastTick).fdiv 1000).toNat ∧
      (s.config.aggregateBy = AggregateBy.file →
        b.byFile =
          addTo ((lookupBucket s.data (s.activeWorkspace.getD "untitled")
              (dateKeyFor now)).getD zeroBucket).byFile (s.activeFile.getD "untitled")
            ((now - s.lastTick).fdiv 1000).toNat ∧
        b.byFolder =
          ((lookupBucket s.data (s.activeWorkspace.getD "untitled")
              (dateKeyFor now)).getD zeroBucket).byFolder) ∧
      (s.config.aggregateBy = AggregateBy.folder →
        b.byFolder =
          addTo ((lookupBucket s.data (s.activeWorkspace.getD "untitled")
              (dateKeyFor now)).getD zeroBucket).byFolder
            (folderKeyFor (s.activeWorkspace.getD "untitled") (s.activeFile.getD "untitled"))
            ((now - s.lastTick).fdiv 1000).toNat ∧
        b.byFile =
          ((lookupBucket s.data (s.activeWorkspace.getD "untitled")
              (dateKeyFor now)).getD zeroBucket).byFile) := by
  rw [onTick_accum s now hr hni (fdiv_thousand_pos hsec)]
  rw [lookupBucket_addSeconds]
  refine ⟨_, rfl, by rw [bumpBucket_totalSeconds], fun hagg => ?_, fun hagg => ?_⟩
  · rw [hagg]; exact ⟨rfl, rfl⟩
  · rw [hagg]; exact ⟨rfl, rfl⟩

/-- Closed instance of C1: five whole seconds land in the day bucket of
workspace `file:///w` under `byFolder["src"]`. -/
theorem spec_c1_witness :
    ∃ b,
      lookupBucket (onTick sampleState 5000).data
          (sampleState.activeWorkspace.getD "untitled") (dateKeyFor 5000) = some b ∧
      b.totalSeconds =
        ((lookupBucket sampleState.data (sampleState.activeWorkspace.getD "untitled")
            (dateKeyFor 5000)).getD zeroBucket).totalSeconds +
          (((5000 : Int) - sampleState.lastTick).fdiv 1000).toNat ∧
      (sampleState.config.aggregateBy = AggregateBy.file →
        b.byFile =
          addTo ((lookupBucket sampleState.data (sampleState.activeWorkspace.getD "untitled")
              (dateKeyFor 5000)).getD zeroBucket).byFile (sampleState.activeFile.getD "untitled")
            (((5000 : Int) - sampleState.lastTick).fdiv 1000).toNat ∧
        b.byFolder =
          ((lookupBucket sampleState.data (sampleState.activeWorkspace.getD "untitled")
              (dateKeyFor 5000)).getD zeroBucket).byFolder) ∧
      (sampleState.config.aggregateBy = AggregateBy.folder →
        b.byFolder =
          addTo ((lookupBucket sampleState.data (sampleState.activeWorkspace.getD "untitled")
              (dateKeyFor 5000)).getD zeroBucket).byFolder
            (folderKeyFor (sampleState.activeWorkspace.getD "untitled")
              (sampleState.activeFile.getD "untitled"))
            (((5000 : Int) - sampleState.lastTick).fdiv 1000).toNat ∧
        b.byFile =
          ((lookupBucket sampleState.data (sampleState.activeWorkspace.getD "untitled")
              (dateKeyFor 5000)).getD zeroBucket).byFile) :=
  spec_c1 sampleState 5000 rfl (by decide) (by decide)

/-- Claim C6: the per-bucket balance `totalSeconds = Σ byFile + Σ
byFolder` is preserved by every tick: any bucket present afterwards is
balanced provided the bucket (if any) stored at the same keys before
was balanced — each tick adds the same delta to the total and to
exactly one entry of exactly one map, and fresh buckets start at zero. -/
theorem spec_c6 (s : ServiceState) (now : Int) (wsKey day : String) (b2 : DayBucket)
    (hafter : lookupBucket (onTick s now).data wsKey day = some b2)
    (hbefore : ∀ b, lookupBucket s.data wsKey day = some b → bucketBalanced b) :
    bucketBalanced b2 := by
  by_cases hr : s.running = true
  · by_cases hidle : (s.config.idleTimeoutSeconds : Int) * 1000 ≤ now - s.lastActivity
    · rw [onTick_idle_run s now hr hidle] at hafter
      exact hbefore b2 hafter
    · by_cases hd : (now - s.lastTick).fdiv 1000 ≤ 0
      · rw [onTick_noDelta s now hr (not_le.mp hidle) hd] at hafter
        exact hbefore b2 hafter
      · rw [onTick_accum s now hr (not_le.mp hidle) (not_le.mp hd)] at hafter
        by_cases hit : wsKey = s.activeWorkspace.getD "untitled" ∧ day = dateKeyFor now
        · obtain ⟨hw, hdk⟩ := hit
          rw [hw, hdk, lookupBucket_addSeconds] at hafter
          rw [hw, hdk] at hbefore
          have hb2 := Option.some.inj hafter
          subst hb2
          apply bucketBalanced_bump
          cases hl : lookupBucket s.data (s.activeWorkspace.getD "untitled")
              (dateKeyFor now) with
          | none =>
            simp only [hl, Option.getD_none]
            simp [bucketBalanced, zeroBucket, sumVals]
          | some b =>
            simp only [hl, Option.getD_some]
            exact hbefore b hl
        · rw [lookupBucket_addSeconds_frame _ _ _ _ _ _ _ _ hit] at hafter
          exact hbefore b2 hafter
  · rw [onTick_not_running s now (by simpa using hr)] at hafter
    exact hbefore b2 hafter

/-- Closed instance of C6: the bucket created by a concrete tick is
balanced. -/
theorem spec_c6_witness :
    bucketBalanced { totalSeconds := 5, byFile := [], byFolder := [("src", 5)] } :=
  spec_c6 sampleState 5000 "file:///w" (dateKeyFor 5000)
    { totalSeconds := 5, byFile := [], byFolder := [("src", 5)] }
    (by decide)
    (fun b h => by simp [sampleState, lookupBucket, lookup] at h)

/-- Counterexample to claim C10 as stated: the aggregation state the
service maintains and persists is not a flat (single-level) key-value
map — already after one accumulating tick, the persisted object nests
maps three levels deep (`workspaceFolders` → workspace → `dates` → day
bucket). -/
theorem spec_c10_counterexample :
    isFlatMap (dataToJson (onTick sampleState 5000).data) = false := by
  decide

/-- Claim C10 (amended): the aggregation state is a nested map — any
state with a recorded workspace fails the single-level test — while its
innermost per-file and per-folder aggregation maps are flat key-value
maps (every value an atom). -/
theorem spec_c10 (b : DayBucket) (d : PersistedData)
    (m : List (String × WorkspaceEntry)) :
    isFlatMap (natMapToJson b.byFile) = true ∧
    isFlatMap (natMapToJson b.byFolder) = true ∧
    (d.workspaceFolders = some m → isFlatMap (dataToJson d) = false) := by
  refine ⟨?_, ?_, fun h => ?_⟩
  · simp only [natMapToJson, isFlatMap, List.all_eq_true, List.mem_map]
    rintro kv ⟨kv0, hmem, rfl⟩
    rfl
  · simp only [natMapToJson, isFlatMap, List.all_eq_true, List.mem_map]
    rintro kv ⟨kv0, hmem, rfl⟩
    rfl
  · simp [dataToJson, h, isFlatMap, jsonIsAtom]

/-- Closed instance of C10 (amended): a concrete inner map is flat, and
a concrete recorded state is not. -/
theorem spec_c10_witness :
    isFlatMap (natMapToJson
      ({ totalSeconds := 5, byFile := [], byFolder := [("src", 5)] } : DayBucket).byFolder)
        = true ∧
    isFlatMap (dataToJson sampleData) = false :=
  ⟨(spec_c10 { totalSeconds := 5, byFile := [], byFolder := [("src", 5)] } sampleData
      (sampleData.workspaceFolders.getD [])).2.1,
   (spec_c10 { totalSeconds := 5, byFile := [], byFolder := [("src", 5)] } sampleData
      (sampleData.workspaceFolders.getD [])).2.2 rfl⟩

/-! ## Lemmas and claim theorem: time series -/

theorem buildContiguous_length (dates : List (String × DayBucket)) (t : Int) (n : Nat) :
    (buildContiguous dates t n).length = n := by
  induction n with
  | zero => rfl
  | succ n ih => simp [buildContiguous, ih]

theorem buildContiguous_getD (dates : List (String × DayBucket)) (t : Int) :
    ∀ n j, j < n →
      (buildContiguous dates t n).getD j { date := "", totalSeconds := 0 } =
        entryForDay dates t (n - 1 - j) := by
  intro n
  induction n with
  | zero => intro j hj; omega
  | succ n ih =>
    intro j hj
    cases j with
    | zero => simp [buildContiguous]
    | succ j =>
      have hj2 : j < n := by omega
      have : n + 1 - 1 - (j + 1) = n - 1 - j := by omega
      rw [this]
      simpa [buildContiguous] using ih j hj2

theorem makeRange_length (t : Int) (n : Nat) : (makeRange t n).length = n := by
  induction n with
  | zero => rfl
  | succ n ih => simp [makeRange, ih]

theorem makeRange_getD (t : Int) :
    ∀ n j, j < n →
      (makeRange t n).getD j { date := "", totalSeconds := 0 } =
        { date := dateKeyFor (t - ((n - 1 - j : Nat) : Int) * 86400000),
          totalSeconds := 0 } := by
  intro n
  induction n with
  | zero => intro j hj; omega
  | succ n ih =>
    intro j hj
    cases j with
    | zero => simp [makeRange]
    | succ j =>
      have hj2 : j < n := by omega
      have : n + 1 - 1 - (j + 1) = n - 1 - j := by omega
      rw [this]
      simpa [makeRange] using ih j hj2

theorem entryForDay_spec (loaded : PersistedData) (ws : WorkspaceEntry)
    (wsKey : String) (t : Int)
    (hws : lookup (loaded.workspaceFolders.getD []) wsKey = some ws) (n j : Nat) :
    entryForDay ws.dates t (n - 1 - j) = specRangeEntry loaded wsKey t n j := by
  simp only [entryForDay, specRangeEntry, recordedTotalFor, lookupBucket, hws]

theorem specRangeEntry_of_no_ws (loaded : PersistedData) (wsKey : String) (t : Int)
    (hws : lookup (loaded.workspaceFolders.getD []) wsKey = none) (n j : Nat) :
    specRangeEntry loaded wsKey t n j =
      { date := dateKeyFor (t - ((n - 1 - j : Nat) : Int) * 86400000),
        totalSeconds := 0 } := by
  simp only [specRangeEntry, recordedTotalFor, lookupBucket, hws]

theorem dateLe_trans : ∀ a b c : SeriesEntry, dateLe a b → dateLe b c → dateLe a c := by
  intro a b c h1 h2
  simp only [dateLe, decide_eq_true_eq] at h1 h2 ⊢
  exact le_trans h1 h2

theorem dateLe_total : ∀ a b : SeriesEntry, (dateLe a b || dateLe b a) = true := by
  intro a b
  simp only [dateLe, Bool.or_eq_true, decide_eq_true_eq]
  exact le_total a.date b.date

/-- Claim C4: for every stored data set and workspace key, the time
series gives contiguous day ranges of exactly 7, 30 and 365 entries
ending today — entry `j` carries the day `n-1-j` days before today with
its recorded total or 0 — and `all` is exactly the recorded day
entries, sorted ascending by date key. -/
theorem spec_c4 (loaded : PersistedData) (wsKey : String) (todayMs : Int) :
    (getTimeSeriesForWorkspaceRanges loaded wsKey todayMs).d7.length = 7 ∧
    (getTimeSeriesForWorkspaceRanges loaded wsKey todayMs).d30.length = 30 ∧
    (getTimeSeriesForWorkspaceRanges loaded wsKey todayMs).y1.length = 365 ∧
    (∀ j, j < 7 →
      (getTimeSeriesForWorkspaceRanges loaded wsKey todayMs).d7.getD j
          { date := "", totalSeconds := 0 } =
        specRangeEntry loaded wsKey todayMs 7 j) ∧
    (∀ j, j < 30 →
      (getTimeSeriesForWorkspaceRanges loaded wsKey todayMs).d30.getD j
          { date := "", totalSeconds := 0 } =
        specRangeEntry loaded wsKey todayMs 30 j) ∧
    (∀ j, j < 365 →
      (getTimeSeriesForWorkspaceRanges loaded wsKey todayMs).y1.getD j
          { date := "", totalSeconds := 0 } =
        specRangeEntry loaded wsKey todayMs 365 j) ∧
    (getTimeSeriesForWorkspaceRanges loaded wsKey todayMs).all.Pairwise
      (fun a b => a.date ≤ b.date) ∧
    (getTimeSeriesForWorkspaceRanges loaded wsKey todayMs).all.Perm
      (recordedEntries loaded wsKey) := by
  cases hws : lookup (loaded.workspaceFolders.getD []) wsKey with
  | none =>
    simp only [getTimeSeriesForWorkspaceRanges, hws]
    refine ⟨makeRange_length _ _, makeRange_length _ _, makeRange_length _ _,
      fun j hj => ?_, fun j hj => ?_, fun j hj => ?_, List.Pairwise.nil, ?_⟩
    · rw [makeRange_getD _ _ j hj, specRangeEntry_of_no_ws loaded wsKey todayMs hws]
    · rw [makeRange_getD _ _ j hj, specRangeEntry_of_no_ws loaded wsKey todayMs hws]
    · rw [makeRange_getD _ _ j hj, specRangeEntry_of_no_ws loaded wsKey todayMs hws]
    · simp [recordedEntries, hws]
  | some ws =>
    simp only [getTimeSeriesForWorkspaceRanges, hws]
    refine ⟨buildContiguous_length _ _ _, buildContiguous_length _ _ _,
      buildContiguous_length _ _ _,
      fun j hj => ?_, fun j hj => ?_, fun j hj => ?_, ?_, ?_⟩
    · rw [buildContiguous_getD _ _ _ j hj, entryForDay_spec loaded ws wsKey todayMs hws]
    · rw [buildContiguous_getD _ _ _ j hj, entryForDay_spec loaded ws wsKey todayMs hws]
    · rw [buildContiguous_getD _ _ _ j hj, entryForDay_spec loaded ws wsKey todayMs hws]
    · exact (List.sorted_mergeSort dateLe_trans dateLe_total
        (dayEntriesOf ws)).imp (fun hh => by simpa [dateLe] using hh)
    · rw [show recordedEntries loaded wsKey = dayEntriesOf ws by
        simp [recordedEntries, hws]]
      exact List.mergeSort_perm (dayEntriesOf ws) dateLe

/-- Closed instance of C4 on a concrete two-day data set: the 7-day
range entry at position 3 is the day four days before today with its
recorded total, and the ranges have the claimed lengths. -/
theorem spec_c4_witness :
    (getTimeSeriesForWorkspaceRanges sampleData "untitled" 604800000).d7.length = 7 ∧
    (3 < 7 ∧
      (getTimeSeriesForWorkspaceRanges sampleData "untitled" 604800000).d7.getD 3
          { date := "", totalSeconds := 0 } =
        specRangeEntry sampleData "untitled" 604800000 7 3) :=
  ⟨(spec_c4 sampleData "untitled" 604800000).1,
   by decide,
   (spec_c4 sampleData "untitled" 604800000).2.2.2.1 3 (by decide)⟩

/-! ## Lemmas and claim theorem: debounced storage -/

theorem rRunStorage_append (st : RStorageState) (xs ys : List RStorageEvent) :
    rRunStorage st (xs ++ ys) = rRunStorage (rRunStorage st xs) ys := by
  simp [rRunStorage, List.foldl_append]

theorem rStorageWF_append (xs ys : List RStorageEvent) :
    ∀ st, rStorageWF st (xs ++ ys) =
      (rStorageWF st xs && rStorageWF (rRunStorage st xs) ys) := by
  induction xs with
  | nil => intro st; simp [rStorageWF, rRunStorage]
  | cons e xs ih =>
      intro st
      simp [rStorageWF, rRunStorage, ih, Bool.and_assoc]

theorem rPending_latest_aux :
    ∀ (evs : List RStorageEvent) (st : RStorageState) (acc : Option Json),
      (st.armed = true → ∃ v, acc = some v ∧ st.pendingData = some v) →
      (rRunStorage st evs).armed = true →
      ∃ v, evs.foldl latestUpd acc = some v ∧
        (rRunStorage st evs).pendingData = some v
  | [], _st, _acc, hinv, harm => hinv harm
  | e :: evs, st, acc, hinv, harm => by
      cases e with
      | save d =>
          exact rPending_latest_aux evs _ _ (fun _ => ⟨d, rfl, rfl⟩) harm
      | fireArmed =>
          exact rPending_latest_aux evs _ _ (fun h => Bool.noConfusion h) harm
      | fireOrphan =>
          exact rPending_latest_aux evs _ _ hinv harm
      | fireEnd =>
          exact rPending_latest_aux evs _ _ (fun h => Bool.noConfusion h) harm

theorem atomic_no_orphan_aux :
    ∀ (tr : List RStorageEvent) (st : RStorageState),
      st.orphans = 0 → st.inFlight = 0 →
      rStorageWF st tr = true → atomicSched tr = true →
      RStorageEvent.fireOrphan ∉ tr
  | [], _st, _, _, _, _ => by simp
  | RStorageEvent.save d :: rest, st, ho, hi, hwf, hat => by
      simp only [rStorageWF, Bool.and_eq_true] at hwf
      have hat' : atomicSched rest = true := hat
      have hrec :=
        atomic_no_orphan_aux rest (rStorageStep st (RStorageEvent.save d))
          ho hi hwf.2 hat'
      simp only [List.mem_cons, not_or]
      exact ⟨fun h => RStorageEvent.noConfusion h, hrec⟩
  | RStorageEvent.fireOrphan :: _rest, st, ho, _hi, hwf, _hat => by
      simp only [rStorageWF, Bool.and_eq_true] at hwf
      have := of_decide_eq_true hwf.1
      omega
  | RStorageEvent.fireEnd :: _rest, st, _ho, hi, hwf, _hat => by
      simp only [rStorageWF, Bool.and_eq_true] at hwf
      have := of_decide_eq_true hwf.1
      omega
  | [RStorageEvent.fireArmed], _st, _, _, _, hat => by
      exact absurd hat (by decide)
  | RStorageEvent.fireArmed :: RStorageEvent.save d :: _rest, _st, _, _, _, hat => by
      have : atomicSched
          (RStorageEvent.fireArmed :: RStorageEvent.save d :: _rest) = false := rfl
      rw [this] at hat
      exact Bool.noConfusion hat
  | RStorageEvent.fireArmed :: RStorageEvent.fireArmed :: _rest, _st, _, _, _, hat => by
      have : atomicSched
          (RStorageEvent.fireArmed :: RStorageEvent.fireArmed :: _rest) = false := rfl
      rw [this] at hat
      exact Bool.noConfusion hat
  | RStorageEvent.fireArmed :: RStorageEvent.fireOrphan :: _rest, _st, _, _, _, hat => by
      have : atomicSched
          (RStorageEvent.fireArmed :: RStorageEvent.fireOrphan :: _rest) = false := rfl
      rw [this] at hat
      exact Bool.noConfusion hat
  | RStorageEvent.fireArmed :: RStorageEvent.fireEnd :: rest, st, ho, hi, hwf, hat => by
      simp only [rStorageWF, Bool.and_eq_true] at hwf
      have hat' : atomicSched rest = true := hat
      have ho1 : (rStorageStep (rStorageStep st RStorageEvent.fireArmed)
          RStorageEvent.fireEnd).orphans = 0 := by
        simp [rStorageStep, ho]
      have hi1 : (rStorageStep (rStorageStep st RStorageEvent.fireArmed)
          RStorageEvent.fireEnd).inFlight = 0 := by
        simp [rStorageStep, hi]
      have hrec := atomic_no_orphan_aux rest _ ho1 hi1 hwf.2.2 hat'
      simp only [List.mem_cons, not_or]
      exact ⟨fun h => RStorageEvent.noConfusion h,
        fun h => RStorageEvent.noConfusion h, hrec⟩
termination_by tr => tr.length

theorem rWritten_keys :
    ∀ (evs : List RStorageEvent) (st : RStorageState),
      (∀ kv ∈ st.written, kv.1 = "timezap.data") →
      ∀ kv ∈ (rRunStorage st evs).written, kv.1 = "timezap.data"
  | [], _st, h => h
  | e :: evs, st, h => by
      refine rWritten_keys evs (rStorageStep st e) ?_
      cases e with
      | save d => exact h
      | fireArmed =>
          intro kv hkv
          simp only [rStorageStep, List.mem_append, List.mem_singleton] at hkv
          rcases hkv with hkv | hkv
          · exact h kv hkv
          · rw [hkv]
      | fireOrphan =>
          intro kv hkv
          simp only [rStorageStep, List.mem_append, List.mem_singleton] at hkv
          rcases hkv with hkv | hkv
          · exact h kv hkv
          · rw [hkv]
      | fireEnd => exact h

/-- C7 counterexample. The spec says a `save` arriving within the
debounce window simply replaces the pending data so that each flush
writes the latest data. In the refined model of `src/storage.ts` the
well-formed trace below — a save, its timer firing, a second save
landing while the first write is awaited, the first callback resuming
(orphaning the second timer), and the orphaned timer firing — writes
`undefined` (key removal) as its final `globalState.update`, although
the latest save carried `Json.num 2`. -/
theorem spec_c7_counterexample :
    rStorageWF rInitStorage
      [RStorageEvent.save (Json.num 1), RStorageEvent.fireArmed,
        RStorageEvent.save (Json.num 2), RStorageEvent.fireEnd,
        RStorageEvent.fireOrphan] = true ∧
    rLatestSave
      [RStorageEvent.save (Json.num 1), RStorageEvent.fireArmed,
        RStorageEvent.save (Json.num 2), RStorageEvent.fireEnd,
        RStorageEvent.fireOrphan] = some (Json.num 2) ∧
    (rRunStorage rInitStorage
      [RStorageEvent.save (Json.num 1), RStorageEvent.fireArmed,
        RStorageEvent.save (Json.num 2), RStorageEvent.fireEnd,
        RStorageEvent.fireOrphan]).written =
      [("timezap.data", some (Json.num 1)), ("timezap.data", none)] :=
  ⟨rfl, rfl, rfl⟩

/-- C7 (amended). In the refined model of the debounced `Storage.save`:
(i) whenever the timer recorded in `saveTimer` fires, the callback
writes, under key `"timezap.data"`, exactly the argument of the most
recent `save` call so far — a save within the debounce window replaces
the pending data before any flush, so a superseded value is never
written by such a fire; (ii) if no `save` lands while a write is in
flight (`atomicSched`), no orphaned timer ever fires, so every write is
of that form; and (iii) every write in any trace uses the single key
`"timezap.data"`. (The unamended claim fails: a `save` landing during
the awaited `globalState.update` leaves an orphaned timer that later
fires with `pendingData` already cleared and writes `undefined`; see
the counterexample.) -/
theorem spec_c7 (p q tr : List RStorageEvent)
    (hwf : rStorageWF rInitStorage (p ++ RStorageEvent.fireArmed :: q) = true)
    (htr : rStorageWF rInitStorage tr = true)
    (hat : atomicSched tr = true) :
    (∃ v, rLatestSave p = some v ∧
        (rRunStorage rInitStorage (p ++ [RStorageEvent.fireArmed])).written =
          (rRunStorage rInitStorage p).written ++ [("timezap.data", some v)]) ∧
    RStorageEvent.fireOrphan ∉ tr ∧
    ∀ kv ∈ (rRunStorage rInitStorage tr).written, kv.1 = "timezap.data" := by
  refine ⟨?_, atomic_no_orphan_aux tr rInitStorage rfl rfl htr hat,
    rWritten_keys tr rInitStorage (by intro kv hkv; exact absurd hkv (by simp [rInitStorage]))⟩
  have hsplit := rStorageWF_append p (RStorageEvent.fireArmed :: q) rInitStorage
  rw [hwf] at hsplit
  have hq : rStorageWF (rRunStorage rInitStorage p)
      (RStorageEvent.fireArmed :: q) = true := (Bool.and_eq_true _ _).mp hsplit.symm |>.2
  simp only [rStorageWF, Bool.and_eq_true] at hq
  have harm : (rRunStorage rInitStorage p).armed = true := hq.1
  obtain ⟨v, hlat, hpend⟩ :=
    rPending_latest_aux p rInitStorage none (fun h => Bool.noConfusion h) harm
  refine ⟨v, hlat, ?_⟩
  rw [rRunStorage_append]
  simp only [rRunStorage, List.foldl_cons, List.foldl_nil, rStorageStep]
  rw [show List.foldl rStorageStep rInitStorage p = rRunStorage rInitStorage p from rfl,
    hpend]

/-- C7 witness: a save followed by an un-interleaved flush. -/
theorem spec_c7_witness :
    (∃ v, rLatestSave [RStorageEvent.save (Json.num 3)] = some v ∧
        (rRunStorage rInitStorage
            ([RStorageEvent.save (Json.num 3)] ++ [RStorageEvent.fireArmed])).written =
          (rRunStorage rInitStorage [RStorageEvent.save (Json.num 3)]).written ++
            [("timezap.data", some v)]) ∧
    RStorageEvent.fireOrphan ∉
      [RStorageEvent.save (Json.num 3), RStorageEvent.fireArmed,
        RStorageEvent.fireEnd] ∧
    ∀ kv ∈ (rRunStorage rInitStorage
        [RStorageEvent.save (Json.num 3), RStorageEvent.fireArmed,
          RStorageEvent.fireEnd]).written, kv.1 = "timezap.data" :=
  spec_c7 [RStorageEvent.save (Json.num 3)] [RStorageEvent.fireEnd]
    [RStorageEvent.save (Json.num 3), RStorageEvent.fireArmed, RStorageEvent.fireEnd]
    rfl rfl rfl

/-! ## Lemmas: JSON printer/parser roundtrip -/

/-- Structural induction over JSON values with membership hypotheses
for the nested lists. -/
theorem jsonIndMem (P : Json → Prop) (h1 : P Json.null) (h2 : ∀ b, P (Json.bool b))
    (h3 : ∀ n, P (Json.num n)) (h4 : ∀ s, P (Json.str s))
    (h5 : ∀ xs, (∀ x ∈ xs, P x) → P (Json.arr xs))
    (h6 : ∀ kvs, (∀ kv ∈ kvs, P kv.2) → P (Json.obj kvs)) : ∀ v, P v
  | Json.null => h1
  | Json.bool b => h2 b
  | Json.num n => h3 n
  | Json.str s => h4 s
  | Json.arr xs => h5 xs (fun x hx => jsonIndMem P h1 h2 h3 h4 h5 h6 x)
  | Json.obj kvs => h6 kvs (fun kv hkv => jsonIndMem P h1 h2 h3 h4 h5 h6 kv.2)
termination_by v => sizeOf v
decreasing_by
  · have := List.sizeOf_lt_of_mem hx
    simp only [Json.arr.sizeOf_spec]
    omega
  · have h := List.sizeOf_lt_of_mem hkv
    obtain ⟨a, b⟩ := kv
    simp only [Json.obj.sizeOf_spec, Prod.mk.sizeOf_spec] at *
    omega

theorem skipWs_cons_of_not {c : Char} (cs : List Char) (h : isWs c = false) :
    skipWs (c :: cs) = c :: cs := by
  simp [skipWs, h]

theorem skipWs_replicate (n : Nat) (cs : List Char) :
    skipWs (List.replicate n ' ' ++ cs) = skipWs cs := by
  induction n with
  | zero => simp
  | succ n ih => simpa [List.replicate_succ, skipWs, isWs] using ih

theorem skipWs_sp (lvl : Nat) (cs : List Char) :
    skipWs (sp lvl ++ cs) = skipWs cs :=
  skipWs_replicate _ _

theorem skipWs_nl (cs : List Char) : skipWs ('\n' :: cs) = skipWs cs := by
  simp [skipWs, isWs]

theorem digitChar_isDigit : ∀ k, k < 10 → (digitChar k).isDigit = true := by decide

theorem digitChar_toNat : ∀ k, k < 10 → (digitChar k).toNat - 48 = k := by decide

/-- A digit character is not one of the whitespace characters. -/
theorem isDigit_not_ws {c : Char} (h : c.isDigit = true) : isWs c = false := by
  cases hw : isWs c
  · rfl
  · exfalso
    simp only [isWs, Bool.or_eq_true, decide_eq_true_eq] at hw
    rcases hw with ((h1 | h1) | h1) | h1 <;> (subst h1; exact absurd h (by decide))

/-- A digit character differs from any non-digit character. -/
theorem isDigit_ne {c c2 : Char} (h : c.isDigit = true) (h2 : c2.isDigit = false) :
    c ≠ c2 :=
  fun heq => by rw [heq, h2] at h; cases h

theorem natDigitsAux_eq (n : Nat) :
    natDigitsAux n =
      if n = 0 then [] else natDigitsAux (n / 10) ++ [digitChar (n % 10)] := by
  rw [natDigitsAux]
  by_cases h : n = 0 <;> simp [h]

theorem natDigitsAux_digits :
    ∀ n, ∀ c ∈ natDigitsAux n, c.isDigit = true := by
  intro n
  induction n using Nat.strong_induction_on with
  | _ n ih =>
    intro c hc
    rw [natDigitsAux_eq] at hc
    by_cases h : n = 0
    · simp [h] at hc
    · simp only [if_neg h, List.mem_append, List.mem_singleton] at hc
      cases hc with
      | inl h2 =>
        exact ih (n / 10) (Nat.div_lt_self (Nat.pos_of_ne_zero h) (by decide)) c h2
      | inr h2 => rw [h2]; exact digitChar_isDigit _ (Nat.mod_lt _ (by decide))

theorem natDigitsAux_foldl :
    ∀ n acc,
      (natDigitsAux n).foldl (fun a c => a * 10 + (c.toNat - 48)) acc =
        acc * 10 ^ (natDigitsAux n).length + n := by
  intro n
  induction n using Nat.strong_induction_on with
  | _ n ih =>
    intro acc
    by_cases h : n = 0
    · subst h; rw [natDigitsAux_eq]; simp
    · rw [natDigitsAux_eq, if_neg h, List.foldl_append, List.length_append,
        ih (n / 10) (Nat.div_lt_self (Nat.pos_of_ne_zero h) (by decide))]
      simp only [List.foldl_cons, List.foldl_nil, List.length_cons, List.length_nil]
      rw [digitChar_toNat _ (Nat.mod_lt _ (by decide))]
      have hdm : n / 10 * 10 + n % 10 = n := by omega
      calc (acc * 10 ^ (natDigitsAux (n / 10)).length + n / 10) * 10 + n % 10
          = acc * (10 ^ (natDigitsAux (n / 10)).length * 10) +
              (n / 10 * 10 + n % 10) := by ring
        _ = acc * 10 ^ ((natDigitsAux (n / 10)).length + (0 + 1)) + n := by
              rw [hdm]; ring

theorem natDigits_foldl (n : Nat) :
    (natDigits n).foldl (fun a c => a * 10 + (c.toNat - 48)) 0 = n := by
  by_cases h : n = 0
  · subst h; decide
  · rw [natDigits, if_neg h, natDigitsAux_foldl]; simp

theorem natDigits_ne_nil (n : Nat) : natDigits n ≠ [] := by
  by_cases h : n = 0
  · subst h; simp [natDigits]
  · rw [natDigits, if_neg h, natDigitsAux_eq, if_neg h]; simp

theorem natDigits_digits (n : Nat) : ∀ c ∈ natDigits n, c.isDigit = true := by
  by_cases h : n = 0
  · subst h; simp [natDigits]
  · rw [natDigits, if_neg h]; exact natDigitsAux_digits n

theorem parseDigitsAcc_append :
    ∀ (ds : List Char) (acc : Nat) (rest : List Char),
      (∀ c ∈ ds, c.isDigit = true) → nonDigitHead rest = true →
      parseDigitsAcc acc (ds ++ rest) =
        (ds.foldl (fun a c => a * 10 + (c.toNat - 48)) acc, rest) := by
  intro ds
  induction ds with
  | nil =>
    intro acc rest hds hrest
    cases rest with
    | nil => rfl
    | cons c cs =>
      simp only [nonDigitHead, Bool.not_eq_true'] at hrest
      simp [parseDigitsAcc, hrest]
  | cons d ds ih =>
    intro acc rest hds hrest
    have hd := hds d (by simp)
    simp only [List.cons_append, parseDigitsAcc, hd, if_pos, List.foldl_cons]
    exact ih _ rest (fun c hc => hds c (by simp [hc])) hrest

/-- Parsing a rendered number recovers it (and stops at the non-digit
continuation). -/
theorem parseVal_num (n fuel : Nat) (rest : List Char)
    (hrest : nonDigitHead rest = true) :
    parseVal (fuel + 1) (natDigits n ++ rest) = some (Json.num n, rest) := by
  obtain ⟨c, ds, hcons⟩ : ∃ c ds, natDigits n = c :: ds := by
    cases h : natDigits n with
    | nil => exact absurd h (natDigits_ne_nil n)
    | cons c ds => exact ⟨c, ds, rfl⟩
  have hcdig : c.isDigit = true := natDigits_digits n c (by rw [hcons]; simp)
  have hds : ∀ c2 ∈ ds, c2.isDigit = true :=
    fun c2 hc2 => natDigits_digits n c2 (by rw [hcons]; simp [hc2])
  rw [hcons, List.cons_append]
  rw [parseVal, skipWs_cons_of_not _ (isDigit_not_ws hcdig)]
  show parseTok fuel c (ds ++ rest) = some (Json.num n, rest)
  unfold parseTok
  rw [if_neg (isDigit_ne hcdig (by decide) : c ≠ 'n'),
      if_neg (isDigit_ne hcdig (by decide) : c ≠ 't'),
      if_neg (isDigit_ne hcdig (by decide) : c ≠ 'f'),
      if_neg (isDigit_ne hcdig (by decide) : c ≠ '"'),
      if_neg (isDigit_ne hcdig (by decide) : c ≠ '['),
      if_neg (isDigit_ne hcdig (by decide) : c ≠ '\x7b'),
      if_pos (show c.isDigit = true from hcdig)]
  have hn := natDigits_foldl n
  rw [hcons, List.foldl_cons] at hn
  simp only [Nat.zero_mul, Nat.zero_add] at hn
  rw [parseDigitsAcc_append ds _ rest hds hrest]
  simp [hn]

/-! ## Lemmas: JSON string literal roundtrip -/

theorem hexVal_hexDigit : ∀ k, k < 16 → hexVal (hexDigit k) = some k := by decide

theorem psa_close (f : Nat) (acc rest : List Char) :
    parseStringAux (f + 1) acc ('"' :: rest) = some (String.mk acc.reverse, rest) := by
  rw [parseStringAux]
  show parseStringStep f acc '"' rest = _
  unfold parseStringStep
  rw [if_pos rfl]

theorem psa_esc_quote (f : Nat) (acc rest : List Char) :
    parseStringAux (f + 1) acc ('\\' :: '"' :: rest) =
      parseStringAux f ('"' :: acc) rest := by
  rw [parseStringAux]
  show parseStringStep f acc '\\' ('"' :: rest) = _
  unfold parseStringStep
  rw [if_neg (by decide), if_pos rfl]
  rw [parseStringEsc]
  unfold parseStringEscTok
  rw [if_pos rfl]

theorem psa_u (f : Nat) (acc : List Char) (hi lo : Nat) (hhi : hi < 16) (hlo : lo < 16)
    (hcode : ((0 * 16 + 0) * 16 + hi) * 16 + lo < 55296) (tail : List Char) :
    parseStringAux (f + 1) acc
        ('\\' :: 'u' :: '0' :: '0' :: hexDigit hi :: hexDigit lo :: tail) =
      parseStringAux f (Char.ofNat (((0 * 16 + 0) * 16 + hi) * 16 + lo) :: acc) tail := by
  rw [parseStringAux]
  show parseStringStep f acc '\\' ('u' :: '0' :: '0' :: hexDigit hi :: hexDigit lo :: tail) = _
  unfold parseStringStep
  rw [if_neg (by decide), if_pos rfl]
  rw [parseStringEsc]
  unfold parseStringEscTok
  rw [if_neg (by decide), if_neg (by decide), if_neg (by decide), if_neg (by decide),
    if_neg (by decide), if_neg (by decide), if_neg (by decide), if_neg (by decide),
    if_pos rfl]
  rw [parseStringU]
  rw [hexVal_hexDigit _ hhi, hexVal_hexDigit _ hlo,
    show hexVal '0' = some 0 from rfl]
  rw [parseStringHex]
  rw [if_pos hcode]

theorem psa_plain (f : Nat) (acc rest : List Char) (c : Char)
    (h1 : c ≠ '"') (h2 : c ≠ '\\') (h8 : ¬ c.toNat < 32) :
    parseStringAux (f + 1) acc (c :: rest) = parseStringAux f (c :: acc) rest := by
  rw [parseStringAux]
  show parseStringStep f acc c rest = _
  unfold parseStringStep
  rw [if_neg h1, if_neg h2, if_neg h8]
theorem psa_esc_backslash (f : Nat) (acc rest : List Char) :
    parseStringAux (f + 1) acc ('\\' :: '\\' :: rest) =
      parseStringAux f ('\\' :: acc) rest := by
  rw [parseStringAux]
  show parseStringStep f acc '\\' ('\\' :: rest) = _
  unfold parseStringStep
  rw [if_neg (by decide), if_pos rfl, parseStringEsc]
  unfold parseStringEscTok
  rw [if_neg (by decide), if_pos rfl]

theorem psa_esc_b (f : Nat) (acc rest : List Char) :
    parseStringAux (f + 1) acc ('\\' :: 'b' :: rest) =
      parseStringAux f ('\x08' :: acc) rest := by
  rw [parseStringAux]
  show parseStringStep f acc '\\' ('b' :: rest) = _
  unfold parseStringStep
  rw [if_neg (by decide), if_pos rfl, parseStringEsc]
  unfold parseStringEscTok
  rw [if_neg (by decide), if_neg (by decide), if_neg (by decide), if_pos rfl]

theorem psa_esc_f (f : Nat) (acc rest : List Char) :
    parseStringAux (f + 1) acc ('\\' :: 'f' :: rest) =
      parseStringAux f ('\x0c' :: acc) rest := by
  rw [parseStringAux]
  show parseStringStep f acc '\\' ('f' :: rest) = _
  unfold parseStringStep
  rw [if_neg (by decide), if_pos rfl, parseStringEsc]
  unfold parseStringEscTok
  rw [if_neg (by decide), if_neg (by decide), if_neg (by decide), if_neg (by decide),
    if_pos rfl]

theorem psa_esc_n (f : Nat) (acc rest : List Char) :
    parseStringAux (f + 1) acc ('\\' :: 'n' :: rest) =
      parseStringAux f ('\x0a' :: acc) rest := by
  rw [parseStringAux]
  show parseStringStep f acc '\\' ('n' :: rest) = _
  unfold parseStringStep
  rw [if_neg (by decide), if_pos rfl, parseStringEsc]
  unfold parseStringEscTok
  rw [if_neg (by decide), if_neg (by decide), if_neg (by decide), if_neg (by decide),
    if_neg (by decide), if_pos rfl]

theorem psa_esc_r (f : Nat) (acc rest : List Char) :
    parseStringAux (f + 1) acc ('\\' :: 'r' :: rest) =
      parseStringAux f ('\x0d' :: acc) rest := by
  rw [parseStringAux]
  show parseStringStep f acc '\\' ('r' :: rest) = _
  unfold parseStringStep
  rw [if_neg (by decide), if_pos rfl, parseStringEsc]
  unfold parseStringEscTok
  rw [if_neg (by decide), if_neg (by decide), if_neg (by decide), if_neg (by decide),
    if_neg (by decide), if_neg (by decide), if_pos rfl]

theorem psa_esc_t (f : Nat) (acc rest : List Char) :
    parseStringAux (f + 1) acc ('\\' :: 't' :: rest) =
      parseStringAux f ('\x09' :: acc) rest := by
  rw [parseStringAux]
  show parseStringStep f acc '\\' ('t' :: rest) = _
  unfold parseStringStep
  rw [if_neg (by decide), if_pos rfl, parseStringEsc]
  unfold parseStringEscTok
  rw [if_neg (by decide), if_neg (by decide), if_neg (by decide), if_neg (by decide),
    if_neg (by decide), if_neg (by decide), if_neg (by decide), if_pos rfl]

theorem parseStringAux_esc :
    ∀ (cs : List Char) (fuel : Nat) (acc rest : List Char), cs.length < fuel →
      parseStringAux fuel acc (escList cs ++ '"' :: rest) =
        some (String.mk (acc.reverse ++ cs), rest) := by
  intro cs
  induction cs with
  | nil =>
    intro fuel acc rest hf
    obtain ⟨f, rfl⟩ : ∃ f, fuel = f + 1 := ⟨fuel - 1, by omega⟩
    show parseStringAux (f + 1) acc ('"' :: rest) = _
    rw [psa_close]
    simp
  | cons c cs ih =>
    intro fuel acc rest hf
    obtain ⟨f, rfl⟩ : ∃ f, fuel = f + 1 := ⟨fuel - 1, by omega⟩
    have hlen : cs.length < f := by
      simp only [List.length_cons] at hf; omega
    by_cases h1 : c = '"'
    · subst h1
      show parseStringAux (f + 1) acc ('\\' :: '"' :: (escList cs ++ '"' :: rest)) = _
      rw [psa_esc_quote, ih f _ _ hlen]
      simp
    · by_cases h2 : c = '\\'
      · subst h2
        show parseStringAux (f + 1) acc ('\\' :: '\\' :: (escList cs ++ '"' :: rest)) = _
        rw [psa_esc_backslash, ih f _ _ hlen]
        simp
      · by_cases h3 : c = '\x08'
        · subst h3
          show parseStringAux (f + 1) acc ('\\' :: 'b' :: (escList cs ++ '"' :: rest)) = _
          rw [psa_esc_b, ih f _ _ hlen]
          simp
        · by_cases h4 : c = '\x09'
          · subst h4
            show parseStringAux (f + 1) acc ('\\' :: 't' :: (escList cs ++ '"' :: rest)) = _
            rw [psa_esc_t, ih f _ _ hlen]
            simp
          · by_cases h5 : c = '\x0a'
            · subst h5
              show parseStringAux (f + 1) acc
                  ('\\' :: 'n' :: (escList cs ++ '"' :: rest)) = _
              rw [psa_esc_n, ih f _ _ hlen]
              simp
            · by_cases h6 : c = '\x0c'
              · subst h6
                show parseStringAux (f + 1) acc
                    ('\\' :: 'f' :: (escList cs ++ '"' :: rest)) = _
                rw [psa_esc_f, ih f _ _ hlen]
                simp
              · by_cases h7 : c = '\x0d'
                · subst h7
                  show parseStringAux (f + 1) acc
                      ('\\' :: 'r' :: (escList cs ++ '"' :: rest)) = _
                  rw [psa_esc_r, ih f _ _ hlen]
                  simp
                · by_cases h8 : c.toNat < 32
                  · have hesc : escChar c =
                        ['\\', 'u', '0', '0', hexDigit (c.toNat / 16),
                          hexDigit (c.toNat % 16)] := by
                      unfold escChar
                      rw [if_neg h1, if_neg h2, if_neg h3, if_neg h4, if_neg h5,
                        if_neg h6, if_neg h7, if_pos h8]
                    show parseStringAux (f + 1) acc
                        ((escChar c ++ escList cs) ++ '"' :: rest) = _
                    rw [hesc]
                    simp only [List.cons_append, List.nil_append, List.append_assoc]
                    rw [psa_u f acc (c.toNat / 16) (c.toNat % 16) (by omega) (by omega)
                      (by omega)]
                    have hchar : Char.ofNat
                        (((0 * 16 + 0) * 16 + c.toNat / 16) * 16 + c.toNat % 16) = c := by
                      rw [show ((0 * 16 + 0) * 16 + c.toNat / 16) * 16 + c.toNat % 16 =
                          c.toNat from by omega]
                      exact Char.ofNat_toNat c
                    rw [hchar, ih f _ _ hlen]
                    simp
                  · have hesc : escChar c = [c] := by
                      unfold escChar
                      rw [if_neg h1, if_neg h2, if_neg h3, if_neg h4, if_neg h5,
                        if_neg h6, if_neg h7, if_neg h8]
                    show parseStringAux (f + 1) acc
                        ((escChar c ++ escList cs) ++ '"' :: rest) = _
                    rw [hesc]
                    simp only [List.cons_append, List.nil_append, List.append_assoc]
                    rw [psa_plain f _ _ c h1 h2 h8, ih f _ _ hlen]
                    simp

theorem escChar_length (c : Char) : 1 ≤ (escChar c).length := by
  unfold escChar
  split_ifs <;> simp

theorem escList_length (cs : List Char) : cs.length ≤ (escList cs).length := by
  induction cs with
  | nil => simp [escList]
  | cons c cs ih =>
    show cs.length + 1 ≤ (escChar c ++ escList cs).length
    rw [List.length_append]
    have := escChar_length c
    omega

theorem skipWs_space (cs : List Char) : skipWs (' ' :: cs) = skipWs cs := by
  simp [skipWs, isWs]

theorem parseVal_congr_ws (f : Nat) (X Y : List Char) (h : skipWs X = skipWs Y) :
    parseVal f X = parseVal f Y := by
  cases f with
  | zero => simp only [parseVal]
  | succ f => rw [parseVal, parseVal, h]

theorem nonDigitHead_arrTail (lvl : Nat) (xs : List Json) (Z : List Char) :
    nonDigitHead (renderArrTail lvl xs ++ '\n' :: Z) = true := by
  cases xs with
  | nil => rw [renderArrTail]; rfl
  | cons x xs => rw [renderArrTail]; rfl

theorem nonDigitHead_objTail (lvl : Nat) (kvs : List (String × Json)) (Z : List Char) :
    nonDigitHead (renderObjTail lvl kvs ++ '\n' :: Z) = true := by
  cases kvs with
  | nil => rw [renderObjTail]; rfl
  | cons kv kvs => rw [renderObjTail]; rfl

theorem renderJ_head (lvl : Nat) (v : Json) :
    ∃ c cs, renderJ lvl v = c :: cs ∧ isWs c = false ∧ c ≠ ']' ∧ c ≠ '\x7d' := by
  cases v with
  | null => exact ⟨'n', _, by rw [renderJ], by decide, by decide, by decide⟩
  | bool b =>
    cases b with
    | true => exact ⟨'t', _, by rw [renderJ], by decide, by decide, by decide⟩
    | false => exact ⟨'f', _, by rw [renderJ], by decide, by decide, by decide⟩
  | num n =>
    obtain ⟨c, ds, hcons⟩ : ∃ c ds, natDigits n = c :: ds := by
      cases h : natDigits n with
      | nil => exact absurd h (natDigits_ne_nil n)
      | cons c ds => exact ⟨c, ds, rfl⟩
    have hcdig : c.isDigit = true := natDigits_digits n c (by rw [hcons]; simp)
    exact ⟨c, ds, by rw [renderJ, hcons], isDigit_not_ws hcdig,
      isDigit_ne hcdig (by decide), isDigit_ne hcdig (by decide)⟩
  | str s =>
    refine ⟨'"', escList s.data ++ ['"'], ?_, by decide, by decide, by decide⟩
    rw [renderJ]
    rfl
  | arr xs =>
    cases xs with
    | nil => exact ⟨'[', _, by rw [renderJ], by decide, by decide, by decide⟩
    | cons x xs => exact ⟨'[', _, by rw [renderJ], by decide, by decide, by decide⟩
  | obj kvs =>
    cases kvs with
    | nil => exact ⟨'\x7b', _, by rw [renderJ], by decide, by decide, by decide⟩
    | cons kv kvs => exact ⟨'\x7b', _, by rw [renderJ], by decide, by decide, by decide⟩
theorem parseArrTail_render :
    ∀ (xs : List Json), (∀ x ∈ xs, roundOK x) →
      ∀ (l1 l2 fuel : Nat) (rest : List Char), sizeArr xs < fuel →
        parseArrTailP fuel (renderArrTail l1 xs ++ '\n' :: (sp l2 ++ (']' :: rest))) =
          some (xs, rest) := by
  intro xs
  induction xs with
  | nil =>
    intro hmem l1 l2 fuel rest hsz
    obtain ⟨f, rfl⟩ : ∃ f, fuel = f + 1 := ⟨fuel - 1, by omega⟩
    rw [renderArrTail, List.nil_append]
    rw [parseArrTailP]
    rw [show skipWs ('\n' :: (sp l2 ++ (']' :: rest))) = ']' :: rest from by
      rw [skipWs_nl, skipWs_sp, skipWs_cons_of_not _ (by decide)]]
    show parseArrTok f ']' rest = _
    unfold parseArrTok
    rw [if_pos rfl]
  | cons x xs ih =>
    intro hmem l1 l2 fuel rest hsz
    obtain ⟨f, rfl⟩ : ∃ f, fuel = f + 1 := ⟨fuel - 1, by omega⟩
    rw [renderArrTail]
    simp only [List.cons_append, List.append_assoc]
    rw [parseArrTailP]
    rw [show skipWs (',' :: '\n' :: (sp l1 ++ (renderJ l1 x ++ (renderArrTail l1 xs ++
        ('\n' :: (sp l2 ++ (']' :: rest))))))) = ',' :: '\n' :: (sp l1 ++ (renderJ l1 x ++
        (renderArrTail l1 xs ++ ('\n' :: (sp l2 ++ (']' :: rest)))))) from
      skipWs_cons_of_not _ (by decide)]
    show parseArrTok f ',' ('\n' :: (sp l1 ++ (renderJ l1 x ++
      (renderArrTail l1 xs ++ ('\n' :: (sp l2 ++ (']' :: rest))))))) = _
    unfold parseArrTok
    rw [if_neg (by decide), if_pos rfl]
    rw [parseVal_congr_ws f _ (renderJ l1 x ++ (renderArrTail l1 xs ++
        ('\n' :: (sp l2 ++ (']' :: rest))))) (by rw [skipWs_nl, skipWs_sp])]
    have hsx : sizeJ x ≤ f := by
      rw [sizeArr] at hsz; omega
    have hsxs : sizeArr xs < f := by
      rw [sizeArr] at hsz; omega
    simp only [hmem x (by simp) l1 f _ hsx (nonDigitHead_arrTail l1 xs _),
      ih (fun y hy => hmem y (by simp [hy])) l1 l2 f rest hsxs]

theorem stringMk_data (s : String) : String.mk s.data = s := rfl

theorem parseMember_render (k : String) (v : Json) (hv : roundOK v)
    (l1 fuel : Nat) (R : List Char) (hsz : sizeJ v ≤ fuel)
    (hnd : nonDigitHead R = true) :
    parseMember fuel '"'
        (escList k.data ++ ('"' :: (':' :: ' ' :: (renderJ l1 v ++ R)))) =
      some ((k, v), R) := by
  unfold parseMember
  rw [if_pos rfl]
  rw [parseStringAux_esc k.data _ [] _ (by
    have := escList_length k.data
    simp only [List.length_append]
    omega)]
  show parseMemberColon fuel (String.mk (List.reverse [] ++ k.data))
      (':' :: ' ' :: (renderJ l1 v ++ R)) = _
  rw [show String.mk (List.reverse [] ++ k.data) = k from stringMk_data k]
  unfold parseMemberColon
  rw [show skipWs (':' :: ' ' :: (renderJ l1 v ++ R)) =
      ':' :: ' ' :: (renderJ l1 v ++ R) from skipWs_cons_of_not _ (by decide)]
  show (match parseVal fuel (' ' :: (renderJ l1 v ++ R)) with
    | some (v2, rest5) => some ((k, v2), rest5)
    | none => none) = _
  rw [parseVal_congr_ws fuel _ (renderJ l1 v ++ R) (by rw [skipWs_space])]
  rw [hv l1 fuel R hsz hnd]
theorem parseObjTail_render :
    ∀ (kvs : List (String × Json)), (∀ kv ∈ kvs, roundOK kv.2) →
      ∀ (l1 l2 fuel : Nat) (rest : List Char), sizeObj kvs < fuel →
        parseObjTailP fuel
            (renderObjTail l1 kvs ++ '\n' :: (sp l2 ++ ('\x7d' :: rest))) =
          some (kvs, rest) := by
  intro kvs
  induction kvs with
  | nil =>
    intro hmem l1 l2 fuel rest hsz
    obtain ⟨f, rfl⟩ : ∃ f, fuel = f + 1 := ⟨fuel - 1, by omega⟩
    rw [renderObjTail, List.nil_append]
    rw [parseObjTailP]
    rw [show skipWs ('\n' :: (sp l2 ++ ('\x7d' :: rest))) = '\x7d' :: rest from by
      rw [skipWs_nl, skipWs_sp, skipWs_cons_of_not _ (by decide)]]
    show parseObjTok f '\x7d' rest = _
    unfold parseObjTok
    rw [if_pos rfl]
  | cons kv kvs ih =>
    intro hmem l1 l2 fuel rest hsz
    obtain ⟨f, rfl⟩ : ∃ f, fuel = f + 1 := ⟨fuel - 1, by omega⟩
    obtain ⟨k, v⟩ := kv
    rw [renderObjTail, renderField]
    simp only [escString, List.cons_append, List.append_assoc, List.nil_append]
    rw [parseObjTailP]
    rw [show skipWs (',' :: '\n' :: (sp l1 ++ ('"' :: (escList (k, v).1.data ++
        ('"' :: (':' :: ' ' :: (renderJ l1 (k, v).2 ++ (renderObjTail l1 kvs ++
          ('\n' :: (sp l2 ++ ('\x7d' :: rest)))))))))))
        = ',' :: '\n' :: (sp l1 ++ ('"' :: (escList (k, v).1.data ++
        ('"' :: (':' :: ' ' :: (renderJ l1 (k, v).2 ++ (renderObjTail l1 kvs ++
          ('\n' :: (sp l2 ++ ('\x7d' :: rest)))))))))) from
      skipWs_cons_of_not _ (by decide)]
    show parseObjTok f ',' ('\n' :: (sp l1 ++ ('"' :: (escList (k, v).1.data ++
        ('"' :: (':' :: ' ' :: (renderJ l1 (k, v).2 ++ (renderObjTail l1 kvs ++
          ('\n' :: (sp l2 ++ ('\x7d' :: rest))))))))))) = _
    unfold parseObjTok
    rw [if_neg (by decide), if_pos rfl]
    rw [show skipWs ('\n' :: (sp l1 ++ ('"' :: (escList (k, v).1.data ++
        ('"' :: (':' :: ' ' :: (renderJ l1 (k, v).2 ++ (renderObjTail l1 kvs ++
          ('\n' :: (sp l2 ++ ('\x7d' :: rest))))))))))) =
        '"' :: (escList (k, v).1.data ++
        ('"' :: (':' :: ' ' :: (renderJ l1 (k, v).2 ++ (renderObjTail l1 kvs ++
          ('\n' :: (sp l2 ++ ('\x7d' :: rest)))))))) from by
      rw [skipWs_nl, skipWs_sp, skipWs_cons_of_not _ (by decide)]]
    have hszv : sizeJ (k, v).2 ≤ f := by
      rw [sizeObj] at hsz; omega
    have hszs : sizeObj kvs < f := by
      rw [sizeObj] at hsz; omega
    simp only [parseMember_render (k, v).1 (k, v).2 (hmem (k, v) (by simp)) l1 f _
        hszv (nonDigitHead_objTail l1 kvs _),
      ih (fun y hy => hmem y (by simp [hy])) l1 l2 f rest hszs]
theorem roundOK_all : ∀ v, roundOK v := by
  refine jsonIndMem roundOK ?_ ?_ ?_ ?_ ?_ ?_
  · intro lvl fuel rest hsz hnd
    rw [sizeJ] at hsz
    obtain ⟨f, rfl⟩ : ∃ f, fuel = f + 1 := ⟨fuel - 1, by omega⟩
    rw [renderJ]
    simp only [List.cons_append, List.nil_append]
    rw [parseVal, skipWs_cons_of_not _ (by decide)]
    show parseTok f 'n' ('u' :: 'l' :: 'l' :: rest) = _
    unfold parseTok
    rw [if_pos rfl]
    rfl
  · intro b lvl fuel rest hsz hnd
    rw [sizeJ] at hsz
    obtain ⟨f, rfl⟩ : ∃ f, fuel = f + 1 := ⟨fuel - 1, by omega⟩
    cases b with
    | true =>
      rw [renderJ]
      simp only [List.cons_append, List.nil_append]
      rw [parseVal, skipWs_cons_of_not _ (by decide)]
      show parseTok f 't' ('r' :: 'u' :: 'e' :: rest) = _
      unfold parseTok
      rw [if_neg (by decide), if_pos rfl]
      rfl
    | false =>
      rw [renderJ]
      simp only [List.cons_append, List.nil_append]
      rw [parseVal, skipWs_cons_of_not _ (by decide)]
      show parseTok f 'f' ('a' :: 'l' :: 's' :: 'e' :: rest) = _
      unfold parseTok
      rw [if_neg (by decide), if_neg (by decide), if_pos rfl]
      rfl
  · intro n lvl fuel rest hsz hnd
    rw [sizeJ] at hsz
    obtain ⟨f, rfl⟩ : ∃ f, fuel = f + 1 := ⟨fuel - 1, by omega⟩
    rw [renderJ]
    exact parseVal_num n f rest hnd
  · intro s lvl fuel rest hsz hnd
    rw [sizeJ] at hsz
    obtain ⟨f, rfl⟩ : ∃ f, fuel = f + 1 := ⟨fuel - 1, by omega⟩
    rw [renderJ]
    simp only [escString, List.cons_append, List.append_assoc, List.nil_append]
    rw [parseVal, skipWs_cons_of_not _ (by decide)]
    show parseTok f '"' (escList s.data ++ '"' :: rest) = _
    unfold parseTok
    rw [if_neg (by decide), if_neg (by decide), if_neg (by decide), if_pos rfl]
    rw [parseStringAux_esc s.data _ [] rest (by
      have := escList_length s.data
      simp only [List.length_append]
      omega)]
    simp only [List.reverse_nil, List.nil_append, stringMk_data]
  · intro xs hmem lvl fuel rest hsz hnd
    cases xs with
    | nil =>
      rw [sizeJ, sizeArr] at hsz
      obtain ⟨f, rfl⟩ : ∃ f, fuel = f + 1 := ⟨fuel - 1, by omega⟩
      rw [renderJ]
      simp only [List.cons_append, List.nil_append]
      rw [parseVal, skipWs_cons_of_not _ (by decide)]
      show parseTok f '[' (']' :: rest) = _
      unfold parseTok
      rw [if_neg (by decide), if_neg (by decide), if_neg (by decide),
        if_neg (by decide), if_pos rfl]
      rw [skipWs_cons_of_not _ (by decide)]
      show parseArrFirst f ']' rest = _
      unfold parseArrFirst
      rw [if_pos rfl]
    | cons x xs =>
      rw [sizeJ, sizeArr] at hsz
      obtain ⟨f, rfl⟩ : ∃ f, fuel = f + 1 := ⟨fuel - 1, by omega⟩
      rw [renderJ]
      simp only [List.cons_append, List.append_assoc, List.nil_append]
      rw [parseVal, skipWs_cons_of_not _ (by decide)]
      show parseTok f '['
          ('\n' :: (sp (lvl + 1) ++ (renderJ (lvl + 1) x ++ (renderArrTail (lvl + 1) xs ++
            ('\n' :: (sp lvl ++ (']' :: rest))))))) = _
      unfold parseTok
      rw [if_neg (by decide), if_neg (by decide), if_neg (by decide),
        if_neg (by decide), if_pos rfl]
      obtain ⟨c2, cs2, hhead, hc2ws, hc2br, hc2brace⟩ := renderJ_head (lvl + 1) x
      rw [show skipWs ('\n' :: (sp (lvl + 1) ++ (renderJ (lvl + 1) x ++
          (renderArrTail (lvl + 1) xs ++ ('\n' :: (sp lvl ++ (']' :: rest))))))) =
          c2 :: (cs2 ++ (renderArrTail (lvl + 1) xs ++
            ('\n' :: (sp lvl ++ (']' :: rest))))) from by
        rw [skipWs_nl, skipWs_sp, hhead, List.cons_append,
          skipWs_cons_of_not _ hc2ws]]
      show parseArrFirst f c2 (cs2 ++ (renderArrTail (lvl + 1) xs ++
        ('\n' :: (sp lvl ++ (']' :: rest))))) = _
      unfold parseArrFirst
      rw [if_neg hc2br]
      rw [show c2 :: (cs2 ++ (renderArrTail (lvl + 1) xs ++
          ('\n' :: (sp lvl ++ (']' :: rest))))) =
          renderJ (lvl + 1) x ++ (renderArrTail (lvl + 1) xs ++
            ('\n' :: (sp lvl ++ (']' :: rest)))) from by
        rw [hhead, List.cons_append]]
      have hx : sizeJ x ≤ f := by omega
      have hxs : sizeArr xs < f := by omega
      simp only [hmem x (by simp) (lvl + 1) f _ hx (nonDigitHead_arrTail (lvl + 1) xs _),
        parseArrTail_render xs (fun y hy => hmem y (by simp [hy])) (lvl + 1) lvl f rest hxs]
  · intro kvs hmem lvl fuel rest hsz hnd
    cases kvs with
    | nil =>
      rw [sizeJ, sizeObj] at hsz
      obtain ⟨f, rfl⟩ : ∃ f, fuel = f + 1 := ⟨fuel - 1, by omega⟩
      rw [renderJ]
      simp only [List.cons_append, List.nil_append]
      rw [parseVal, skipWs_cons_of_not _ (by decide)]
      show parseTok f '\x7b' ('\x7d' :: rest) = _
      unfold parseTok
      rw [if_neg (by decide), if_neg (by decide), if_neg (by decide),
        if_neg (by decide), if_neg (by decide), if_pos rfl]
      rw [skipWs_cons_of_not _ (by decide)]
      show parseObjFirst f '\x7d' rest = _
      unfold parseObjFirst
      rw [if_pos rfl]
    | cons kv kvs =>
      rw [sizeJ, sizeObj] at hsz
      obtain ⟨f, rfl⟩ : ∃ f, fuel = f + 1 := ⟨fuel - 1, by omega⟩
      obtain ⟨k, v⟩ := kv
      rw [renderJ, renderField]
      simp only [escString, List.cons_append, List.append_assoc, List.nil_append]
      rw [parseVal, skipWs_cons_of_not _ (by decide)]
      show parseTok f '\x7b'
          ('\n' :: (sp (lvl + 1) ++ ('"' :: (escList (k, v).1.data ++
            ('"' :: (':' :: ' ' :: (renderJ (lvl + 1) (k, v).2 ++
              (renderObjTail (lvl + 1) kvs ++
                ('\n' :: (sp lvl ++ ('\x7d' :: rest))))))))))) = _
      unfold parseTok
      rw [if_neg (by decide), if_neg (by decide), if_neg (by decide),
        if_neg (by decide), if_neg (by decide), if_pos rfl]
      rw [show skipWs ('\n' :: (sp (lvl + 1) ++ ('"' :: (escList (k, v).1.data ++
          ('"' :: (':' :: ' ' :: (renderJ (lvl + 1) (k, v).2 ++
            (renderObjTail (lvl + 1) kvs ++
              ('\n' :: (sp lvl ++ ('\x7d' :: rest))))))))))) =
          '"' :: (escList (k, v).1.data ++
            ('"' :: (':' :: ' ' :: (renderJ (lvl + 1) (k, v).2 ++
              (renderObjTail (lvl + 1) kvs ++
                ('\n' :: (sp lvl ++ ('\x7d' :: rest)))))))) from by
        rw [skipWs_nl, skipWs_sp, skipWs_cons_of_not _ (by decide)]]
      show parseObjFirst f '"' (escList (k, v).1.data ++
          ('"' :: (':' :: ' ' :: (renderJ (lvl + 1) (k, v).2 ++
            (renderObjTail (lvl + 1) kvs ++
              ('\n' :: (sp lvl ++ ('\x7d' :: rest)))))))) = _
      unfold parseObjFirst
      rw [if_neg (by decide)]
      have hszv : sizeJ (k, v).2 ≤ f := by simp only at hsz ⊢; omega
      have hszs : sizeObj kvs < f := by simp only at hsz ⊢; omega
      simp only [parseMember_render (k, v).1 (k, v).2 (hmem (k, v) (by simp)) (lvl + 1) f _
          hszv (nonDigitHead_objTail (lvl + 1) kvs _),
        parseObjTail_render kvs (fun y hy => hmem y (by simp [hy])) (lvl + 1) lvl f rest hszs]
theorem sizeArr_le_tail (xs : List Json)
    (h : ∀ x ∈ xs, ∀ lvl, sizeJ x ≤ (renderJ lvl x).length) (lvl : Nat) :
    sizeArr xs ≤ (renderArrTail lvl xs).length := by
  induction xs with
  | nil => rw [sizeArr, renderArrTail]; simp
  | cons x xs ih =>
    rw [sizeArr, renderArrTail]
    have h1 := h x (by simp) lvl
    have h2 := ih (fun y hy => h y (by simp [hy]))
    simp only [List.length_cons, List.length_append]
    omega

theorem sizeObj_le_tail (kvs : List (String × Json))
    (h : ∀ kv ∈ kvs, ∀ lvl, sizeJ kv.2 ≤ (renderJ lvl kv.2).length) (lvl : Nat) :
    sizeObj kvs ≤ (renderObjTail lvl kvs).length := by
  induction kvs with
  | nil => rw [sizeObj, renderObjTail]; simp
  | cons kv kvs ih =>
    rw [sizeObj, renderObjTail, renderField]
    have h1 := h kv (by simp) lvl
    have h2 := ih (fun y hy => h y (by simp [hy]))
    simp only [List.length_cons, List.length_append]
    omega

theorem sizeJ_le_len : ∀ (v : Json) (lvl : Nat), sizeJ v ≤ (renderJ lvl v).length := by
  refine jsonIndMem (fun v => ∀ lvl, sizeJ v ≤ (renderJ lvl v).length)
    ?_ ?_ ?_ ?_ ?_ ?_
  · intro lvl; rw [sizeJ, renderJ]; simp
  · intro b lvl; cases b <;> (rw [sizeJ, renderJ]; simp)
  · intro n lvl
    rw [sizeJ, renderJ]
    exact List.length_pos.mpr (natDigits_ne_nil n)
  · intro s lvl; rw [sizeJ, renderJ]; simp [escString]
  · intro xs hmem lvl
    cases xs with
    | nil => rw [sizeJ, sizeArr, renderJ]; simp
    | cons x xs =>
      rw [sizeJ, sizeArr, renderJ]
      have h1 := hmem x (by simp) (lvl + 1)
      have h2 := sizeArr_le_tail xs (fun y hy => hmem y (by simp [hy])) (lvl + 1)
      simp only [List.length_cons, List.length_append]
      omega
  · intro kvs hmem lvl
    cases kvs with
    | nil => rw [sizeJ, sizeObj, renderJ]; simp
    | cons kv kvs =>
      rw [sizeJ, sizeObj, renderJ, renderField]
      have h1 := hmem kv (by simp) (lvl + 1)
      have h2 := sizeObj_le_tail kvs (fun y hy => hmem y (by simp [hy])) (lvl + 1)
      simp only [List.length_cons, List.length_append]
      omega

theorem jsonParse_stringify (v : Json) : jsonParse (stringifyPretty v) = some v := by
  unfold jsonParse stringifyPretty
  rw [show (String.mk (renderJ 0 v)).data = renderJ 0 v from rfl,
    show (String.mk (renderJ 0 v)).length = (renderJ 0 v).length from rfl]
  have h := roundOK_all v 0 ((renderJ 0 v).length + 1) []
    (by have := sizeJ_le_len v 0; omega) rfl
  rw [List.append_nil] at h
  rw [h]
  rfl
/-- Claim C8: importing the exported JSON restores an equal value —
`exportToJson` stringifies the loaded data, `importFromJson` parses its
argument and saves the result, and parsing undoes the pretty
stringification, so the composition schedules a save of exactly the
stored value and the debounced write persists it unchanged. -/
theorem spec_c8 (d : Json) (st : StorageState) (hst : st.store = some d) :
    jsonParse (exportToJson st) = some d ∧
    importFromJson st (exportToJson st) =
      some (storageStep st (StorageEvent.save d)) ∧
    (storageStep (storageStep st (StorageEvent.save d)) StorageEvent.fire).store =
      some d := by
  have h1 : exportToJson st = stringifyPretty d := by
    unfold exportToJson loadStorage
    rw [hst]
    rfl
  refine ⟨?_, ?_, ?_⟩
  · rw [h1, jsonParse_stringify]
  · unfold importFromJson
    rw [h1, jsonParse_stringify]
    rfl
  · simp [storageStep]

/-- Closed instance of C8 on a concrete nested document with escaped
string content: export then import schedules a save of the same value. -/
theorem spec_c8_witness :
    ({ pendingData := none, store := some sampleJson, written := [] }
        : StorageState).store = some sampleJson ∧
    jsonParse (exportToJson
        { pendingData := none, store := some sampleJson, written := [] }) =
      some sampleJson ∧
    importFromJson { pendingData := none, store := some sampleJson, written := [] }
        (exportToJson { pendingData := none, store := some sampleJson, written := [] }) =
      some (storageStep { pendingData := none, store := some sampleJson, written := [] }
        (StorageEvent.save sampleJson)) ∧
    (storageStep (storageStep
          { pendingData := none, store := some sampleJson, written := [] }
          (StorageEvent.save sampleJson))
        StorageEvent.fire).store = some sampleJson :=
  ⟨rfl,
   (spec_c8 sampleJson { pendingData := none, store := some sampleJson, written := [] }
      rfl).1,
   (spec_c8 sampleJson { pendingData := none, store := some sampleJson, written := [] }
      rfl).2.1,
   (spec_c8 sampleJson { pendingData := none, store := some sampleJson, written := [] }
      rfl).2.2⟩

end TimeZap
